import Mathlib

/-!
Shallow embedding of the ESPN4CC4C plan builder (`bin/build_plan.py`).

Times are modelled as `Int` epoch seconds (the Python code works on UTC
`datetime` values that are whole seconds; `datetime` arithmetic, comparison
and `timestamp()` round-trip correspond exactly to Int-second arithmetic).
Durations (`min_gap`, paddings) are in seconds except where noted (the
alignment step and paddings are given in minutes, as in the CLI).
Python's floor division `//` on ints is `Int.fdiv`; Python's `%` is
`Int.fmod`.

Lists of `(key, value)` pairs with unique keys model Python dicts
(`event_lane` sticky map, `timelines`).
-/

namespace ESPN4CC

/-- Event row as loaded from the `events` table: `id`, `start_utc`, `stop_utc`
(modelled as already-parsed epoch seconds) and the two classification flags. -/
structure Event where
  id : String
  start_utc : Int
  stop_utc : Int
  is_reair : Int
  is_studio : Int
deriving DecidableEq, Repr

/-- One plan slot as built by `build_plan` (the dicts appended to
`timelines[target_cid]` / produced as `snapped`).  `stop` models the
Python key `"end"` (`end` is a Lean keyword). -/
structure Slot where
  channel_id : String
  event_id : Option String
  start : Int
  stop : Int
  kind : String
  placeholder_reason : Option String
deriving DecidableEq, Repr

/-- Normalized event: the original row plus the window-clamped, padded
`_s`/`_t` datetimes computed at the top of `build_plan`. -/
structure NormEvent where
  ev : Event
  s : Int
  t : Int
deriving DecidableEq, Repr

/-! ### String comparison (Python `<` on `str` compares code points) -/

/-- Lexicographic comparison of char lists by code point, mirroring Python's
string ordering (used by `sorted(..., key=lambda r: (r["channel_id"], ...))`). -/
def charListLt : List Char → List Char → Bool
  | [], [] => false
  | [], _ :: _ => true
  | _ :: _, [] => false
  | a :: as, b :: bs =>
    if a < b then true
    else if b < a then false
    else charListLt as bs

/-- String strict comparison by code points (Python `str.__lt__`). -/
def strLtB (a b : String) : Bool := charListLt a.data b.data

/-! ### Time/grid helpers (`_floor_to_step`, `_ceil_to_step`, `_segmentize`) -/

/-- Python `_floor_to_step`: `datetime.fromtimestamp((s // step) * step)` with
`step = step_mins * 60`. -/
def floor_to_step (s : Int) (step_mins : Int) : Int :=
  (Int.fdiv s (step_mins * 60)) * (step_mins * 60)

/-- Python `_ceil_to_step`: the timestamp itself when on the grid, else the next
multiple of the step. -/
def ceil_to_step (s : Int) (step_mins : Int) : Int :=
  if Int.fmod s (step_mins * 60) = 0 then s
  else (Int.fdiv s (step_mins * 60) + 1) * (step_mins * 60)

/-- First candidate chunk start in `_segmentize`: `s = _floor_to_step(start)`,
bumped to `_ceil_to_step(start)` when the floor lies before the gap start. -/
def segStart (a : Int) (step_mins : Int) : Int :=
  if floor_to_step a step_mins < a then ceil_to_step a step_mins
  else floor_to_step a step_mins

/-- Fuel-indexed version of the `while t < end_dt` loop of `_segmentize`.
The fuel only serves structural recursion; `segLoop` instantiates it with
`(endT - t).toNat`, which the loop never exhausts (each iteration advances
`t` by `step ≥ 1`).  The `0 < step` guard makes the function total; the
Python loop does not terminate for `step ≤ 0` (and `_floor_to_step` raises
for `step = 0`), so no claim is evaluated in that region. -/
def segLoopF (endT step : Int) : Nat → Int → List (Int × Int)
  | 0, _ => []
  | fuel + 1, t =>
    if t < endT ∧ 0 < step then
      (t, min (t + step) endT) :: segLoopF endT step fuel (t + step)
    else []

/-- The `while t < end_dt` loop of `_segmentize`, yielding
`(t, min(t + step, end_dt))` chunks. -/
def segLoop (endT step t : Int) : List (Int × Int) :=
  segLoopF endT step (endT - t).toNat t

/-- Python `_segmentize(start_dt, end_dt, step_mins)`: grid-aligned chunks of the
interval, empty when `start_dt ≥ end_dt`. -/
def segmentize (a b : Int) (step_mins : Int) : List (Int × Int) :=
  if a ≥ b then []
  else segLoop b (step_mins * 60) (segStart a step_mins)

/-! ### Assoc-list helpers (Python dicts) -/

/-- Lookup in an association list (Python `dict.get` / `in`). -/
def slookup {α : Type} (k : String) : List (String × α) → Option α
  | [] => none
  | (k', v) :: rest => if k' = k then some v else slookup k rest

/-- Lookup `timelines[cid]` (defaults to `[]`; `build_plan` only indexes keys that
are present). -/
def laneOf (tls : List (String × List Slot)) (cid : String) : List Slot :=
  (slookup cid tls).getD []

/-- Replace the value stored at the first occurrence of `cid` by `f` of it
(Python `timelines[cid] = f(timelines[cid])`); no-op when absent. -/
def updateLaneWith (f : List Slot → List Slot) : List (String × List Slot) → String → List (String × List Slot)
  | [], _ => []
  | (c, l) :: rest, cid =>
    if c = cid then (c, f l) :: rest else (c, l) :: updateLaneWith f rest cid

/-- Append: `timelines[target_cid].append(slot)`. -/
def updateLaneApp (tls : List (String × List Slot)) (cid : String) (sl : Slot) : List (String × List Slot) :=
  updateLaneWith (fun l => l ++ [sl]) tls cid

/-- Python `timelines = {cid: [] for cid in channels_sorted}`: one entry per distinct
channel id, keyed in first-occurrence order (CPython dict semantics). -/
def mkTimelines (channels : List String) : List (String × List Slot) :=
  channels.foldl (fun acc c => if (slookup c acc).isSome then acc else acc ++ [(c, [])]) []

/-- SQL `INSERT INTO event_lane ... ON CONFLICT(event_id) DO UPDATE SET channel_id`
on the sticky map (`_upsert_event_lane`). -/
def upsert : List (String × String) → String → String → List (String × String)
  | [], e, c => [(e, c)]
  | (e', c') :: rest, e, c =>
    if e' = e then (e', c) :: rest else (e', c') :: upsert rest e c

/-! ### Stable insertion sort (Python `list.sort` / `sorted` are stable) -/

/-- Stable insertion into a sorted list: `x` is placed before the first
element `y` with `le x y` (so equal keys keep their original order). -/
def insertLe {α : Type} (le : α → α → Bool) (x : α) : List α → List α
  | [] => [x]
  | y :: ys => if le x y then x :: y :: ys else y :: insertLe le x ys

/-- Stable sort by the boolean preorder `le`; models Python's stable sorts
(`list.sort(key=...)`, `sorted(..., key=...)`). -/
def sortLe {α : Type} (le : α → α → Bool) (l : List α) : List α :=
  l.foldr (insertLe le) []

/-- Key of `slots.sort(key=lambda r: r["start"])` (gap-filling pass). -/
def startLe (a b : Slot) : Bool := a.start ≤ b.start

/-- Key of `sorted(timelines[cid], key=lambda r: (r["start"], 0 if r["kind"] == "event" else 1))`
(clean-up pass): start first, events before placeholders on ties. -/
def cleanLe (a b : Slot) : Bool :=
  a.start < b.start ∨
    (a.start = b.start ∧
      (if a.kind = "event" then (0 : Int) else 1) ≤ (if b.kind = "event" then (0 : Int) else 1))

/-- Key of `snapped = sorted(cleaned, key=lambda r: (r["channel_id"], r["start"]))`. -/
def snapLe (a b : Slot) : Bool :=
  strLtB a.channel_id b.channel_id ∨ (a.channel_id = b.channel_id ∧ a.start ≤ b.start)

/-! ### Event normalization (top of `build_plan`) -/

/-- Padding applies when some padding is configured and the event is live
(`is_reair == 0 and is_studio == 0`), or `--padding-all` turned the
live-only restriction off. -/
def padApplies (padS padE : Int) (liveOnly : Bool) (e : Event) : Prop :=
  (padS > 0 ∨ padE > 0) ∧ (¬liveOnly ∨ (e.is_reair = 0 ∧ e.is_studio = 0))

/-- Decidability of the padding condition. -/
instance (padS padE : Int) (liveOnly : Bool) (e : Event) :
    Decidable (padApplies padS padE liveOnly e) :=
  inferInstanceAs (Decidable (_ ∧ _))

/-- Value of `s` after the optional lead padding (`s - timedelta(minutes=padding_start_mins)`). -/
def paddedStart (padS padE : Int) (liveOnly : Bool) (e : Event) : Int :=
  if padApplies padS padE liveOnly e then e.start_utc - padS * 60 else e.start_utc

/-- Value of `t` after the optional trail padding. -/
def paddedStop (padS padE : Int) (liveOnly : Bool) (e : Event) : Int :=
  if padApplies padS padE liveOnly e then e.stop_utc + padE * 60 else e.stop_utc

/-- Normalization of one event: optional padding for live events, clamping to
the window, dropped when the clamped interval is empty (the dict's `_s`/`_t`
fields become `NormEvent.s`/`NormEvent.t`). -/
def normalizeEvent (wstart wend padS padE : Int) (liveOnly : Bool) (e : Event) : Option NormEvent :=
  if paddedStop padS padE liveOnly e ≤ wstart ∨ paddedStart padS padE liveOnly e ≥ wend then
    none
  else if min (paddedStop padS padE liveOnly e) wend ≤ max (paddedStart padS padE liveOnly e) wstart then
    none
  else
    some ⟨e, max (paddedStart padS padE liveOnly e) wstart, min (paddedStop padS padE liveOnly e) wend⟩

/-! ### Lane assignment (the sticky packer loop of `build_plan`) -/

/-- Python `lane_free(cid, s, t)`: no slot on the lane overlaps `[s, t)`. -/
def laneFree (l : List Slot) (s t : Int) : Bool :=
  l.all fun sl => t ≤ sl.start ∨ s ≥ sl.stop

/-- The event slot dict appended to `timelines[target_cid]`
(`"event_id": eid or None`). -/
def evSlot (cid : String) (ne : NormEvent) : Slot :=
  ⟨cid, if ne.ev.id = "" then none else some ne.ev.id, ne.s, ne.t, "event", none⟩

/-- The `target_cid` computation of the assignment loop: the sticky lane when
it is truthy, present in `timelines` and free at the event's interval, else
the first free lane in canonical channel order (`None` when no lane is
free). -/
def assignTarget (channels : List String) (sticky : List (String × String))
    (tls : List (String × List Slot)) (ne : NormEvent) : Option String :=
  match slookup ne.ev.id sticky with
  | some p =>
    if p ≠ "" ∧ (slookup p tls).isSome ∧ laneFree (laneOf tls p) ne.s ne.t = true then some p
    else channels.find? fun cid => laneFree (laneOf tls cid) ne.s ne.t
  | none => channels.find? fun cid => laneFree (laneOf tls cid) ne.s ne.t

/-- One iteration of the `for ev in norm_events` assignment loop: compute the
target lane and append the event slot there; a falsy (`None`/empty-string)
target drops the event (`if not target_cid: continue`). -/
def assignEvent (channels : List String) (sticky : List (String × String))
    (tls : List (String × List Slot)) (ne : NormEvent) : List (String × List Slot) :=
  match assignTarget channels sticky tls ne with
  | none => tls
  | some cid => if cid = "" then tls else updateLaneApp tls cid (evSlot cid ne)

/-! ### Gap filling (`# Add placeholders to fill gaps on grid`) -/

/-- Placeholder slots emitted for a gap `[cursor, b)`: the grid segmentation
of the gap, but only when the gap is at least `min_gap`
(`if s["start"] > cursor: ... if gap >= min_gap:` — and identically for the
tail gap before the window end). -/
def emitGap (cid reason : String) (minGap stepM cursor b : Int) : List Slot :=
  if cursor < b ∧ minGap ≤ b - cursor then
    (segmentize cursor b stepM).map fun p =>
      ⟨cid, none, p.1, p.2, "placeholder", some reason⟩
  else []

/-- The `for s in slots` walk of the gap-filling pass: placeholders before
each event slot, cursor advanced to `max(cursor, s["end"])`; returns the
filled list together with the final cursor. -/
def fillLoop (cid : String) (minGap stepM : Int) : Int → List Slot → List Slot × Int
  | cursor, [] => ([], cursor)
  | cursor, s :: rest =>
    let pre := emitGap cid "gap" minGap stepM cursor s.start
    let r := fillLoop cid minGap stepM (max cursor s.stop) rest
    (pre ++ s :: r.1, r.2)

/-- One lane of the gap-filling pass: sort by start, walk with a cursor from
the window start, then emit `"tail"` placeholders up to the window end. -/
def fillLane (cid : String) (wstart wend minGap stepM : Int) (slots : List Slot) : List Slot :=
  let r := fillLoop cid minGap stepM wstart (sortLe startLe slots)
  r.1 ++ emitGap cid "tail" minGap stepM r.2 wend

/-! ### Overlap clean-up (`# Safety clean-up: remove overlaps ...`) -/

/-- Sticky pairs recorded when a slot is visited as `current`:
`new_sticky.append((current["event_id"], cid))` for event slots with a truthy
event id. -/
def stickyOf (cid : String) (c : Slot) : List (String × String) :=
  if c.kind = "event" then
    match c.event_id with
    | some e => if e = "" then [] else [(e, cid)]
    | none => []
  else []

/-- Fuel-indexed translation of the `while i < len(slots)` clean-up loop.
The fuel only serves structural recursion; `cleanLoop` instantiates it with
the list length, which always suffices (each iteration consumes at least one
element).  Branches, in source order: event over following placeholder —
fully covered (`i += 1; continue`, which as written skips appending
`current`), or partly covered (placeholder's start moved to the event's
end); event/event overlap (append `current`, skip the later event); any
other pair (no repair, append `current`). -/
def cleanLoopF (cid : String) : Nat → List Slot → List Slot × List (String × String)
  | _, [] => ([], [])
  | _, [c] => ([c], stickyOf cid c)
  | 0, _ :: _ :: _ => ([], [])
  | fuel + 1, c :: n :: rest =>
    let st := stickyOf cid c
    if c.stop > n.start then
      if c.kind = "event" ∧ n.kind = "placeholder" then
        if n.stop ≤ c.stop then
          let r := cleanLoopF cid fuel (n :: rest)
          (r.1, st ++ r.2)
        else
          let r := cleanLoopF cid fuel ({ n with start := c.stop } :: rest)
          (c :: r.1, st ++ r.2)
      else if c.kind = "event" ∧ n.kind = "event" then
        let r := cleanLoopF cid fuel rest
        (c :: r.1, st ++ r.2)
      else
        let r := cleanLoopF cid fuel (n :: rest)
        (c :: r.1, st ++ r.2)
    else
      let r := cleanLoopF cid fuel (n :: rest)
      (c :: r.1, st ++ r.2)

/-- The clean-up walk over one lane's sorted slot list, returning the cleaned
slots and the sticky pairs collected on that lane. -/
def cleanLoop (cid : String) (l : List Slot) : List Slot × List (String × String) :=
  cleanLoopF cid l.length l

/-- The `norm_events` list computed at the top of `build_plan`. -/
def normEvents (events : List Event) (wstart wend padS padE : Int) (liveOnly : Bool) :
    List NormEvent :=
  events.filterMap (normalizeEvent wstart wend padS padE liveOnly)

/-- State of `timelines` after the sticky-packer assignment loop. -/
def packedTls (channels : List String) (events : List Event)
    (wstart wend : Int) (sticky : List (String × String))
    (padS padE : Int) (liveOnly : Bool) : List (String × List Slot) :=
  (normEvents events wstart wend padS padE liveOnly).foldl
    (fun tls ne => assignEvent channels sticky tls ne) (mkTimelines channels)

/-- State of `timelines` after the gap-filling pass (`for cid in channels_sorted:
timelines[cid] = filled`). -/
def filledTls (channels : List String) (events : List Event)
    (wstart wend minGap alignM : Int) (sticky : List (String × String))
    (padS padE : Int) (liveOnly : Bool) : List (String × List Slot) :=
  channels.foldl
    (fun tls cid => updateLaneWith (fillLane cid wstart wend minGap alignM) tls cid)
    (packedTls channels events wstart wend sticky padS padE liveOnly)

/-- The `cleaned` list collected by the clean-up pass over `channels_sorted`. -/
def cleanedSlots (channels : List String) (events : List Event)
    (wstart wend minGap alignM : Int) (sticky : List (String × String))
    (padS padE : Int) (liveOnly : Bool) : List Slot :=
  channels.flatMap fun cid =>
    (cleanLoop cid (sortLe cleanLe
      (laneOf (filledTls channels events wstart wend minGap alignM sticky padS padE liveOnly) cid))).1

/-- The `new_sticky` pairs collected by the clean-up pass. -/
def newStickyList (channels : List String) (events : List Event)
    (wstart wend minGap alignM : Int) (sticky : List (String × String))
    (padS padE : Int) (liveOnly : Bool) : List (String × String) :=
  channels.flatMap fun cid =>
    (cleanLoop cid (sortLe cleanLe
      (laneOf (filledTls channels events wstart wend minGap alignM sticky padS padE liveOnly) cid))).2

/-- Python `build_plan(conn, channels, events, start, end, min_gap, align, sticky, ...)`
restricted to its pure output: the `snapped` slot list and the `new_sticky`
pairs (their durable upsert is modelled separately in `buildPlanDb`).
`channels` is the list of channel ids in canonical (chno) order
(`channels_sorted`). -/
def buildPlan (channels : List String) (events : List Event)
    (wstart wend minGap alignM : Int) (sticky : List (String × String))
    (padS padE : Int) (liveOnly : Bool) :
    List Slot × List (String × String) :=
  (sortLe snapLe (cleanedSlots channels events wstart wend minGap alignM sticky padS padE liveOnly),
    newStickyList channels events wstart wend minGap alignM sticky padS padE liveOnly)

/-- Non-overlap of two consecutive slots on a lane: the first ends no later
than the second starts. -/
def slotBefore (a b : Slot) : Prop := a.stop ≤ b.start

/-- Symmetric non-overlap of two slots (one ends before the other starts). -/
def disjSlot (a b : Slot) : Prop := a.stop ≤ b.start ∨ b.stop ≤ a.start

/-- A slot's interval is exactly the normalized (`_s`/`_t`) interval of some
input event — the form every event slot of `build_plan` has (no grid
snapping is applied to event slots). -/
def OriginOf (events : List Event) (wstart wend padS padE : Int) (liveOnly : Bool)
    (sl : Slot) : Prop :=
  ∃ e ∈ events, ∃ s t : Int,
    normalizeEvent wstart wend padS padE liveOnly e = some ⟨e, s, t⟩ ∧
      sl.start = s ∧ sl.stop = t

/-- Well-formedness of one slot on lane `cid`: correct lane id, nonempty
interval starting no earlier than the window start, and event slots carry a
normalized event interval. -/
def SlotOk (events : List Event) (wstart wend padS padE : Int) (liveOnly : Bool)
    (cid : String) (sl : Slot) : Prop :=
  sl.channel_id = cid ∧ sl.start < sl.stop ∧ wstart ≤ sl.start ∧
    (sl.kind = "event" → OriginOf events wstart wend padS padE liveOnly sl)

/-- Lane invariant after packing: pairwise non-overlapping well-formed slots
(in assignment order, not necessarily sorted). -/
def LaneDisj (events : List Event) (wstart wend padS padE : Int) (liveOnly : Bool)
    (cid : String) (l : List Slot) : Prop :=
  l.Pairwise disjSlot ∧ ∀ sl ∈ l, SlotOk events wstart wend padS padE liveOnly cid sl

/-- Lane invariant after gap filling: well-formed slots forming a
start-ordered non-overlapping chain. -/
def LaneChain (events : List Event) (wstart wend padS padE : Int) (liveOnly : Bool)
    (cid : String) (l : List Slot) : Prop :=
  l.Pairwise slotBefore ∧ ∀ sl ∈ l, SlotOk events wstart wend padS padE liveOnly cid sl

/-- Invariant of the whole `timelines` dict: every stored lane satisfies
`LaneDisj` for its own key. -/
def TlsOk (events : List Event) (wstart wend padS padE : Int) (liveOnly : Bool)
    (tls : List (String × List Slot)) : Prop :=
  ∀ c l, slookup c tls = some l → LaneDisj events wstart wend padS padE liveOnly c l

/-! ### `iso()` — canonical UTC timestamp serialization -/

/-- Two-digit zero-padded decimal (ranges used: 0–59 / 1–31). -/
def pad2 (n : Int) : String := if n < 10 then "0" ++ toString n else toString n

/-- Four-digit zero-padded year. -/
def pad4 (n : Int) : String :=
  if n < 10 then "000" ++ toString n
  else if n < 100 then "00" ++ toString n
  else if n < 1000 then "0" ++ toString n
  else toString n

/-- Proleptic-Gregorian civil date from days since the Unix epoch (the
arithmetic `datetime` performs internally); returns `(year, month, day)`. -/
def civilFromDays (z0 : Int) : Int × Int × Int :=
  let z := z0 + 719468
  let era := Int.fdiv z 146097
  let doe := z - era * 146097
  let yoe := Int.ediv (doe - Int.ediv doe 1460 + Int.ediv doe 36524 - Int.ediv doe 146096) 365
  let y := yoe + era * 400
  let doy := doe - (365 * yoe + Int.ediv yoe 4 - Int.ediv yoe 100)
  let mp := Int.ediv (5 * doy + 2) 153
  let d := doy - Int.ediv (153 * mp + 2) 5 + 1
  let m := mp + (if mp < 10 then 3 else (-9))
  (y + (if m ≤ 2 then 1 else 0), m, d)

/-- Python `iso(dt)`: `dt.replace(microsecond=0, tzinfo=utc).isoformat()`, i.e.
`"YYYY-MM-DDTHH:MM:SS+00:00"` for a whole-second UTC instant. -/
def iso (t : Int) : String :=
  let days := Int.fdiv t 86400
  let secs := Int.fmod t 86400
  let c := civilFromDays days
  pad4 c.1 ++ "-" ++ pad2 c.2.1 ++ "-" ++ pad2 c.2.2 ++ "T" ++
    pad2 (Int.ediv secs 3600) ++ ":" ++ pad2 (Int.emod (Int.ediv secs 60) 60) ++ ":" ++
    pad2 (Int.emod secs 60) ++ "+00:00"

/-! ### `json.dumps(..., sort_keys=True, ensure_ascii=False)` for checksum rows -/

/-- Lowercase hex digit. -/
def hexDigitChar (n : Nat) : Char := if n < 10 then Char.ofNat (48 + n) else Char.ofNat (87 + n)

/-- JSON string escaping as `json.dumps` with `ensure_ascii=False`: quote,
backslash and named control escapes, `\u00XX` for other control chars,
everything else verbatim. -/
def jsonEscapeChar (c : Char) : String :=
  if c = '"' then "\\\""
  else if c = '\\' then "\\\\"
  else if c = '\n' then "\\n"
  else if c = '\t' then "\\t"
  else if c = '\r' then "\\r"
  else if c.toNat = 8 then "\\b"
  else if c.toNat = 12 then "\\f"
  else if c.toNat < 32 then
    "\\u00" ++ String.mk [hexDigitChar (c.toNat / 16), hexDigitChar (c.toNat % 16)]
  else String.singleton c

/-- Escape every character of a string for JSON. -/
def jsonEscape (s : String) : String := String.join (s.data.map jsonEscapeChar)

/-- A JSON string literal. -/
def jsonStr (s : String) : String := "\"" ++ jsonEscape s ++ "\""

/-- A nullable JSON string (`None` serializes as `null`). -/
def jsonOptStr : Option String → String
  | none => "null"
  | some s => jsonStr s

/-- One row of `rows_for_ck` serialized by
`json.dumps(r, sort_keys=True, ensure_ascii=False)`: keys in sorted order
`channel_id, end, event_id, kind, placeholder_reason, start`, default
`", "` / `": "` separators. -/
def rowJson (s : Slot) : String :=
  "\x7b\"channel_id\": " ++ jsonStr s.channel_id ++
    ", \"end\": " ++ jsonStr (iso s.stop) ++
    ", \"event_id\": " ++ jsonOptStr s.event_id ++
    ", \"kind\": " ++ jsonStr s.kind ++
    ", \"placeholder_reason\": " ++ jsonOptStr s.placeholder_reason ++
    ", \"start\": " ++ jsonStr (iso s.start) ++ "\x7d"

/-! ### SHA-256 (`hashlib.sha256`), over byte lists, 32-bit words as `Nat` mod 2^32 -/

/-- Reduce modulo 2^32. -/
def m32 (x : Nat) : Nat := x % 4294967296

/-- Rotate a 32-bit word right by `n`. -/
def rotr (n x : Nat) : Nat := m32 (x / 2 ^ n + (x % 2 ^ n) * 2 ^ (32 - n))

/-- Logical right shift. -/
def shr (n x : Nat) : Nat := x / 2 ^ n

/-- Bitwise complement on 32 bits. -/
def not32 (x : Nat) : Nat := Nat.xor x 4294967295

/-- SHA-256 Σ0. -/
def bigSigma0 (x : Nat) : Nat := Nat.xor (Nat.xor (rotr 2 x) (rotr 13 x)) (rotr 22 x)

/-- SHA-256 Σ1. -/
def bigSigma1 (x : Nat) : Nat := Nat.xor (Nat.xor (rotr 6 x) (rotr 11 x)) (rotr 25 x)

/-- SHA-256 σ0. -/
def smallSigma0 (x : Nat) : Nat := Nat.xor (Nat.xor (rotr 7 x) (rotr 18 x)) (shr 3 x)

/-- SHA-256 σ1. -/
def smallSigma1 (x : Nat) : Nat := Nat.xor (Nat.xor (rotr 17 x) (rotr 19 x)) (shr 10 x)

/-- SHA-256 Ch. -/
def chF (x y z : Nat) : Nat := Nat.xor (Nat.land x y) (Nat.land (not32 x) z)

/-- SHA-256 Maj. -/
def majF (x y z : Nat) : Nat := Nat.xor (Nat.xor (Nat.land x y) (Nat.land x z)) (Nat.land y z)

/-- SHA-256 round constants (FIPS 180-4, written in decimal). -/
def sha256K : List Nat :=
  [1116352408, 1899447441, 3049323471, 3921009573, 961987163,
   1508970993, 2453635748, 2870763221, 3624381080, 310598401,
   607225278, 1426881987, 1925078388, 2162078206, 2614888103,
   3248222580, 3835390401, 4022224774, 264347078, 604807628,
   770255983, 1249150122, 1555081692, 1996064986, 2554220882,
   2821834349, 2952996808, 3210313671, 3336571891, 3584528711,
   113926993, 338241895, 666307205, 773529912, 1294757372,
   1396182291, 1695183700, 1986661051, 2177026350, 2456956037,
   2730485921, 2820302411, 3259730800, 3345764771, 3516065817,
   3600352804, 4094571909, 275423344, 430227734, 506948616,
   659060556, 883997877, 958139571, 1322822218, 1537002063,
   1747873779, 1955562222, 2024104815, 2227730452, 2361852424,
   2428436474, 2756734187, 3204031479, 3329325298]

/-- SHA-256 initial hash state (FIPS 180-4, written in decimal). -/
def sha256H0 : List Nat :=
  [1779033703, 3144134277, 1013904242, 2773480762, 1359893119,
   2600822924, 528734635, 1541459225]

/-- Big-endian 8-byte encoding of the bit length. -/
def be64 (n : Nat) : List Nat :=
  [n / 2 ^ 56 % 256, n / 2 ^ 48 % 256, n / 2 ^ 40 % 256, n / 2 ^ 32 % 256,
   n / 2 ^ 24 % 256, n / 2 ^ 16 % 256, n / 2 ^ 8 % 256, n % 256]

/-- SHA-256 message padding: `0x80`, zeros to 56 mod 64, 64-bit bit length. -/
def sha256Pad (msg : List Nat) : List Nat :=
  let n := msg.length
  let z := (64 + 55 - n % 64) % 64
  msg ++ [128] ++ List.replicate z 0 ++ be64 (8 * n)

/-- Split a (padded) byte list into 64-byte blocks. -/
def toBlocks (l : List Nat) : List (List Nat) :=
  if l = [] then [] else l.take 64 :: toBlocks (l.drop 64)
termination_by l.length
decreasing_by
  simp only [List.length_drop]
  rcases l with _ | ⟨x, xs⟩
  · simp_all
  · simp
    omega

/-- Big-endian 32-bit word at index `i` of a block. -/
def wordAt (block : List Nat) (i : Nat) : Nat :=
  (block.getD (4 * i) 0) * 16777216 + (block.getD (4 * i + 1) 0) * 65536 +
    (block.getD (4 * i + 2) 0) * 256 + block.getD (4 * i + 3) 0

/-- SHA-256 message schedule: 16 block words extended to 64. -/
def schedule (block : List Nat) : List Nat :=
  let w16 := (List.range 16).map (wordAt block)
  (List.range 48).foldl
    (fun w _ =>
      let n := w.length
      w ++ [m32 (smallSigma1 (w.getD (n - 2) 0) + w.getD (n - 7) 0 +
        smallSigma0 (w.getD (n - 15) 0) + w.getD (n - 16) 0)])
    w16

/-- SHA-256 compression of one 64-byte block into the running state. -/
def sha256Compress (h : List Nat) (block : List Nat) : List Nat :=
  let w := schedule block
  let st := (List.range 64).foldl
    (fun (st : List Nat) (i : Nat) =>
      let a := st.getD 0 0
      let b := st.getD 1 0
      let c := st.getD 2 0
      let d := st.getD 3 0
      let e := st.getD 4 0
      let f := st.getD 5 0
      let g := st.getD 6 0
      let hh := st.getD 7 0
      let t1 := m32 (hh + bigSigma1 e + chF e f g + sha256K.getD i 0 + w.getD i 0)
      let t2 := m32 (bigSigma0 a + majF a b c)
      [m32 (t1 + t2), a, b, c, m32 (d + t1), e, f, g])
    h
  List.zipWith (fun x y => m32 (x + y)) h st

/-- SHA-256 digest bytes of a byte list. -/
def sha256Bytes (msg : List Nat) : List Nat :=
  let hs := (toBlocks (sha256Pad msg)).foldl sha256Compress sha256H0
  hs.flatMap fun wv => [wv / 2 ^ 24 % 256, wv / 2 ^ 16 % 256, wv / 2 ^ 8 % 256, wv % 256]

/-- Lowercase hex of one byte. -/
def hexByte (b : Nat) : String := String.mk [hexDigitChar (b / 16), hexDigitChar (b % 16)]

/-- Python `hashlib.sha256(...).hexdigest()`. -/
def sha256Hex (msg : List Nat) : String := String.join ((sha256Bytes msg).map hexByte)

/-- UTF-8 encoding of one code point (`str.encode("utf-8")`). -/
def utf8Encode (c : Nat) : List Nat :=
  if c < 128 then [c]
  else if c < 2048 then [192 + c / 64, 128 + c % 64]
  else if c < 65536 then [224 + c / 4096, 128 + c / 64 % 64, 128 + c % 64]
  else [240 + c / 262144, 128 + c / 4096 % 64, 128 + c / 64 % 64, 128 + c % 64]

/-- UTF-8 bytes of a string. -/
def strBytes (s : String) : List Nat := s.data.flatMap fun ch => utf8Encode ch.toNat

/-- Python `checksum_rows`: SHA-256 over each canonical row's UTF-8 bytes followed by
a newline byte. -/
def checksum_rows (rows : List String) : String :=
  sha256Hex (rows.flatMap fun r => strBytes r ++ [10])

/-! ### Build inputs bundle (for the determinism claim) -/

/-- Everything `build_plan`'s output depends on: event list (order and
fields), channel list, window, grid, gap and padding parameters, and the
sticky map snapshot.  The embedding takes no other state — no clock, no dict
iteration order, no randomness. -/
structure BuildInputs where
  channels : List String
  events : List Event
  wstart : Int
  wend : Int
  minGap : Int
  alignM : Int
  padS : Int
  padE : Int
  liveOnly : Bool
  sticky : List (String × String)
deriving DecidableEq, Repr

/-- The slot list produced by `build_plan` from bundled inputs. -/
def runPlan (i : BuildInputs) : List Slot :=
  (buildPlan i.channels i.events i.wstart i.wend i.minGap i.alignM i.sticky i.padS i.padE i.liveOnly).1

/-- Rows `rows_for_ck` of `write_plan`, serialized to canonical JSON rows. -/
def planRows (i : BuildInputs) : List String := (runPlan i).map rowJson

/-- The checksum `write_plan` stores for the produced plan. -/
def planChecksum (i : BuildInputs) : String := checksum_rows (planRows i)

/-! ### Durable state and the plan-writer transaction -/

/-- One `plan_run` row. -/
structure PlanRunRow where
  generated_at_utc : String
  valid_from_utc : String
  valid_to_utc : String
  source_version : String
  note : String
  checksum : String
deriving DecidableEq, Repr

/-- One `plan_slot` row. -/
structure PlanSlotRow where
  plan_id : Int
  channel_id : String
  event_id : Option String
  start_utc : String
  end_utc : String
  kind : String
  placeholder_reason : Option String
deriving DecidableEq, Repr

/-- The durable state the builder touches: the `event_lane` sticky table,
`plan_run`, `plan_slot`, and the `plan_meta['active_plan_id']` pointer. -/
structure Db where
  event_lane : List (String × String)
  plan_run : List (Int × PlanRunRow)
  plan_slot : List PlanSlotRow
  plan_meta_active : Option String
deriving DecidableEq, Repr

/-- Builder version string baked into `plan_run.source_version`. -/
def VERSION : String := "2.1.7-padding-logrotate"

/-- Python `cur.lastrowid` for the `plan_run` insert (rowid table: max rowid + 1). -/
def nextRowid (rows : List (Int × PlanRunRow)) : Int :=
  (rows.map Prod.fst).foldl max 0 + 1

/-- Python `write_plan`: computes the canonical checksum, then runs one `with conn:`
transaction containing three statements — the `plan_run` insert, the
`plan_slot` executemany, and the `active_plan_id` upsert.  Each `failK` flag
injects a storage failure at the corresponding statement; sqlite3's context
manager rolls the whole transaction back on any failure, so the original
state is returned unchanged and the error propagates (modelled as `none`). -/
def write_plan (fail1 fail2 fail3 : Bool) (nowT : Int) (st : Db)
    (plan_slots : List Slot) (wstart wend : Int) (note : String) :
    Db × Option (Int × String) :=
  let ck := checksum_rows (plan_slots.map rowJson)
  let plan_id := nextRowid st.plan_run
  let runRow : PlanRunRow :=
    ⟨iso nowT, iso wstart, iso wend, "builder:" ++ VERSION, note, ck⟩
  let w1 : Db := { st with plan_run := st.plan_run ++ [(plan_id, runRow)] }
  let w2 : Db := { w1 with plan_slot := w1.plan_slot ++ plan_slots.map fun s =>
      ⟨plan_id, s.channel_id, s.event_id, iso s.start, iso s.stop, s.kind, s.placeholder_reason⟩ }
  let w3 : Db := { w2 with plan_meta_active := some (toString plan_id) }
  if fail1 then (st, none)
  else if fail2 then (st, none)
  else if fail3 then (st, none)
  else (w3, some (plan_id, ck))

/-- Python `build_plan` including its durable side effect: the sticky map is loaded
from `event_lane`, the plan computed, and the `new_sticky` upserts are
committed (their own `with conn:` block at the end of `build_plan`, before
`write_plan` is ever called). -/
def buildPlanDb (st : Db) (channels : List String) (events : List Event)
    (wstart wend minGap alignM padS padE : Int) (liveOnly : Bool) : Db × List Slot :=
  let r := buildPlan channels events wstart wend minGap alignM st.event_lane padS padE liveOnly
  ({ st with event_lane :=
      r.2.foldl (fun m p => if p.1 = "" then m else upsert m p.1 p.2) st.event_lane },
    r.1)

/-- One build's durable writes in `main`'s order: `build_plan` (committing
sticky upserts) followed by `write_plan` (which may fail and roll back). -/
def runBuild (fail1 fail2 fail3 : Bool) (nowT : Int) (st : Db)
    (channels : List String) (events : List Event)
    (wstart wend minGap alignM padS padE : Int) (liveOnly : Bool) (note : String) :
    Db × Option (Int × String) :=
  let r := buildPlanDb st channels events wstart wend minGap alignM padS padE liveOnly
  write_plan fail1 fail2 fail3 nowT r.1 r.2 wstart wend note

/-- Decidability of the per-lane non-overlap relation. -/
instance : DecidableRel slotBefore :=
  fun a b => inferInstanceAs (Decidable (a.stop ≤ b.start))

/-!
## Theorems

Each claim of the specification is settled below against the embedding.
First, supporting lemmas about the stable sort, the grid segmentation loop,
the gap filler, the packer and the clean-up pass.
-/

/-! ### Stable insertion sort lemmas -/

theorem insertLe_perm {α : Type} (le : α → α → Bool) (x : α) (l : List α) :
    (insertLe le x l).Perm (x :: l) := by
  induction l with
  | nil => simp [insertLe]
  | cons y ys ih =>
    simp only [insertLe]
    by_cases h : le x y
    · simp [h]
    · simp only [h, if_neg, Bool.false_eq_true, not_false_eq_true, ite_false]
      exact (ih.cons y).trans (List.Perm.swap x y ys)

theorem sortLe_perm {α : Type} (le : α → α → Bool) (l : List α) :
    (sortLe le l).Perm l := by
  induction l with
  | nil => simp [sortLe]
  | cons x xs ih =>
    have : sortLe le (x :: xs) = insertLe le x (sortLe le xs) := rfl
    rw [this]
    exact (insertLe_perm le x (sortLe le xs)).trans (ih.cons x)

theorem mem_insertLe {α : Type} (le : α → α → Bool) (x a : α) (l : List α) :
    a ∈ insertLe le x l ↔ a = x ∨ a ∈ l := by
  rw [(insertLe_perm le x l).mem_iff]
  simp

theorem insertLe_pairwise {α : Type} (le : α → α → Bool)
    (htot : ∀ a b, le a b = false → le b a = true)
    (htr : ∀ a b c, le a b = true → le b c = true → le a c = true)
    (x : α) (l : List α) (h : l.Pairwise fun a b => le a b = true) :
    (insertLe le x l).Pairwise fun a b => le a b = true := by
  induction l with
  | nil => simp [insertLe]
  | cons y ys ih =>
    rcases List.pairwise_cons.mp h with ⟨hy, hys⟩
    simp only [insertLe]
    by_cases hxy : le x y
    · simp only [hxy, ite_true]
      refine List.pairwise_cons.mpr ⟨?_, h⟩
      intro z hz
      rcases List.mem_cons.mp hz with rfl | hz
      · exact hxy
      · exact htr x y z hxy (hy z hz)
    · simp only [hxy, Bool.false_eq_true, ite_false]
      refine List.pairwise_cons.mpr ⟨?_, ih hys⟩
      intro z hz
      rcases (mem_insertLe le x z ys).mp hz with hz | hz
      · rw [hz]
        exact htot x y (Bool.eq_false_iff.mpr hxy)
      · exact hy z hz

theorem sortLe_pairwise {α : Type} (le : α → α → Bool)
    (htot : ∀ a b, le a b = false → le b a = true)
    (htr : ∀ a b c, le a b = true → le b c = true → le a c = true)
    (l : List α) : (sortLe le l).Pairwise fun a b => le a b = true := by
  induction l with
  | nil => simp [sortLe]
  | cons x xs ih =>
    have : sortLe le (x :: xs) = insertLe le x (sortLe le xs) := rfl
    rw [this]
    exact insertLe_pairwise le htot htr x (sortLe le xs) ih

theorem sortLe_eq_self {α : Type} (le : α → α → Bool) (l : List α)
    (h : l.Pairwise fun a b => le a b = true) : sortLe le l = l := by
  induction l with
  | nil => rfl
  | cons x xs ih =>
    rcases List.pairwise_cons.mp h with ⟨hx, hxs⟩
    have h1 : sortLe le (x :: xs) = insertLe le x (sortLe le xs) := rfl
    rw [h1, ih hxs]
    cases xs with
    | nil => rfl
    | cons y ys => simp [insertLe, hx y (by simp)]

/-! ### Grid segmentation lemmas -/

theorem segLoopF_mem (endT step : Int) : ∀ (fuel : Nat) (t : Int),
    ∀ p ∈ segLoopF endT step fuel t,
      0 < step ∧ t ≤ p.1 ∧ p.1 < p.2 ∧ p.2 ≤ endT ∧ p.2 ≤ p.1 + step ∧ step ∣ (p.1 - t) := by
  intro fuel
  induction fuel with
  | zero => intro t p hp; simp [segLoopF] at hp
  | succ fuel ih =>
    intro t p hp
    simp only [segLoopF] at hp
    by_cases h : t < endT ∧ 0 < step
    · rw [if_pos h] at hp
      rcases List.mem_cons.mp hp with rfl | hp
      · refine ⟨h.2, le_refl _, ?_, ?_, ?_, ⟨0, by ring⟩⟩
        · exact lt_min (by omega) h.1
        · exact min_le_right _ _
        · exact min_le_left _ _
      · rcases ih (t + step) p hp with ⟨hs, h1, h2, h3, h4, k, hk⟩
        exact ⟨hs, by omega, h2, h3, h4, k + 1, by linarith [hk]⟩
    · rw [if_neg h] at hp
      simp at hp

theorem segLoopF_pairwise (endT step : Int) : ∀ (fuel : Nat) (t : Int),
    (segLoopF endT step fuel t).Pairwise fun p q => p.2 ≤ q.1 := by
  intro fuel
  induction fuel with
  | zero => intro t; simp [segLoopF]
  | succ fuel ih =>
    intro t
    simp only [segLoopF]
    by_cases h : t < endT ∧ 0 < step
    · rw [if_pos h]
      refine List.pairwise_cons.mpr ⟨?_, ih (t + step)⟩
      intro q hq
      have hq1 := (segLoopF_mem endT step fuel (t + step) q hq).2.1
      show min (t + step) endT ≤ q.1
      omega
    · rw [if_neg h]
      exact List.Pairwise.nil

theorem segLoopF_congr (endT step : Int) : ∀ (f1 f2 : Nat) (t : Int),
    (endT - t).toNat ≤ f1 → (endT - t).toNat ≤ f2 →
    segLoopF endT step f1 t = segLoopF endT step f2 t := by
  intro f1
  induction f1 with
  | zero =>
    intro f2 t h1 _
    have hng : ¬ (t < endT ∧ 0 < step) := by
      intro hc
      omega
    cases f2 with
    | zero => rfl
    | succ f2 => simp [segLoopF, hng]
  | succ f1 ih =>
    intro f2 t h1 h2
    cases f2 with
    | zero =>
      have hng : ¬ (t < endT ∧ 0 < step) := by
        intro hc
        omega
      simp [segLoopF, hng]
    | succ f2 =>
      simp only [segLoopF]
      by_cases h : t < endT ∧ 0 < step
      · rw [if_pos h, if_pos h]
        have hb1 : (endT - (t + step)).toNat ≤ f1 := by omega
        have hb2 : (endT - (t + step)).toNat ≤ f2 := by omega
        rw [ih f2 (t + step) hb1 hb2]
      · rw [if_neg h, if_neg h]

theorem segLoop_eq (endT step t : Int) :
    segLoop endT step t =
      if t < endT ∧ 0 < step then
        (t, min (t + step) endT) :: segLoop endT step (t + step)
      else [] := by
  unfold segLoop
  by_cases h : t < endT ∧ 0 < step
  · rw [if_pos h]
    have h1 : (endT - t).toNat = ((endT - t).toNat - 1) + 1 := by omega
    rw [h1]
    simp only [segLoopF]
    rw [if_pos h]
    rw [segLoopF_congr endT step ((endT - t).toNat - 1) ((endT - (t + step)).toNat) (t + step)
      (by omega) (le_refl _)]
  · rw [if_neg h]
    cases hn : (endT - t).toNat with
    | zero => rfl
    | succ m => simp [segLoopF, h]

theorem segLoop_mem (endT step t : Int) :
    ∀ p ∈ segLoop endT step t,
      0 < step ∧ t ≤ p.1 ∧ p.1 < p.2 ∧ p.2 ≤ endT ∧ p.2 ≤ p.1 + step ∧ step ∣ (p.1 - t) :=
  segLoopF_mem endT step _ t

theorem segLoop_pairwise (endT step t : Int) :
    (segLoop endT step t).Pairwise fun p q => p.2 ≤ q.1 :=
  segLoopF_pairwise endT step _ t

theorem segLoop_ne_nil (endT step t : Int) :
    segLoop endT step t ≠ [] ↔ t < endT ∧ 0 < step := by
  rw [segLoop_eq]
  by_cases h : t < endT ∧ 0 < step
  · simp [h]
  · simp [h]

theorem segLoop_head (endT step t : Int) (h : t < endT ∧ 0 < step) :
    (segLoop endT step t).head? = some (t, min (t + step) endT) := by
  rw [segLoop_eq, if_pos h]
  rfl

/-! ### Floor/ceil grid lemmas -/

theorem floor_to_step_dvd (s stepM : Int) : (stepM * 60) ∣ floor_to_step s stepM :=
  ⟨Int.fdiv s (stepM * 60), by unfold floor_to_step; ring⟩

theorem floor_to_step_le (s stepM : Int) (h : 0 < stepM) : floor_to_step s stepM ≤ s := by
  unfold floor_to_step
  have hstep : (0 : Int) < stepM * 60 := by positivity
  rw [Int.fdiv_eq_ediv s (le_of_lt hstep)]
  exact Int.ediv_mul_le s (ne_of_gt hstep)

theorem lt_floor_to_step_add (s stepM : Int) (h : 0 < stepM) :
    s < floor_to_step s stepM + stepM * 60 := by
  unfold floor_to_step
  have hstep : (0 : Int) < stepM * 60 := by positivity
  rw [Int.fdiv_eq_ediv s (le_of_lt hstep)]
  have := Int.lt_ediv_add_one_mul_self s hstep
  linarith [this]

theorem floor_to_step_eq_self (s stepM : Int) (h : 0 < stepM) (hd : (stepM * 60) ∣ s) :
    floor_to_step s stepM = s := by
  unfold floor_to_step
  have hstep : (0 : Int) < stepM * 60 := by positivity
  rw [Int.fdiv_eq_ediv s (le_of_lt hstep)]
  exact Int.ediv_mul_cancel hd

theorem floor_to_step_lt_of_not_dvd (s stepM : Int) (h : 0 < stepM)
    (hd : ¬ (stepM * 60) ∣ s) : floor_to_step s stepM < s := by
  rcases lt_or_eq_of_le (floor_to_step_le s stepM h) with hlt | heq
  · exact hlt
  · exact absurd (heq ▸ floor_to_step_dvd s stepM) hd

theorem ceil_to_step_of_not_dvd (s stepM : Int) (h : 0 < stepM)
    (hd : ¬ (stepM * 60) ∣ s) :
    ceil_to_step s stepM = (Int.fdiv s (stepM * 60) + 1) * (stepM * 60) := by
  unfold ceil_to_step
  have hstep : (0 : Int) < stepM * 60 := by positivity
  rw [if_neg]
  intro hmod
  rw [Int.fmod_eq_emod s (le_of_lt hstep)] at hmod
  exact hd (Int.dvd_of_emod_eq_zero hmod)

theorem ceil_to_step_spec (s stepM : Int) (h : 0 < stepM) (hd : ¬ (stepM * 60) ∣ s) :
    (stepM * 60) ∣ ceil_to_step s stepM ∧
    s < ceil_to_step s stepM ∧
    ceil_to_step s stepM ≤ s + stepM * 60 ∧
    ∀ x : Int, (stepM * 60) ∣ x → s < x → ceil_to_step s stepM ≤ x := by
  have hstep : (0 : Int) < stepM * 60 := by positivity
  rw [ceil_to_step_of_not_dvd s stepM h hd]
  rw [Int.fdiv_eq_ediv s (le_of_lt hstep)]
  refine ⟨⟨s / (stepM * 60) + 1, by ring⟩, ?_, ?_, ?_⟩
  · exact Int.lt_ediv_add_one_mul_self s hstep
  · have := Int.ediv_mul_le s (ne_of_gt hstep)
    linarith [this]
  · intro x hx hsx
    rcases hx with ⟨k, hk⟩
    subst hk
    have h1 : s / (stepM * 60) * (stepM * 60) ≤ s := Int.ediv_mul_le s (ne_of_gt hstep)
    have h2 : s / (stepM * 60) * (stepM * 60) < stepM * 60 * k := lt_of_le_of_lt h1 hsx
    have h3 : s / (stepM * 60) < k := by
      by_contra hcon
      push_neg at hcon
      have : stepM * 60 * k ≤ s / (stepM * 60) * (stepM * 60) := by
        calc stepM * 60 * k = k * (stepM * 60) := by ring
        _ ≤ s / (stepM * 60) * (stepM * 60) := by
          exact mul_le_mul_of_nonneg_right hcon (le_of_lt hstep)
      omega
    calc (s / (stepM * 60) + 1) * (stepM * 60) ≤ k * (stepM * 60) := by
          exact mul_le_mul_of_nonneg_right (by omega) (le_of_lt hstep)
      _ = stepM * 60 * k := by ring

theorem segStart_spec (a stepM : Int) (h : 0 < stepM) :
    (stepM * 60) ∣ segStart a stepM ∧ a ≤ segStart a stepM := by
  unfold segStart
  by_cases hlt : floor_to_step a stepM < a
  · rw [if_pos hlt]
    have hd : ¬ (stepM * 60) ∣ a := by
      intro hdvd
      rw [floor_to_step_eq_self a stepM h hdvd] at hlt
      omega
    rcases ceil_to_step_spec a stepM h hd with ⟨h1, h2, _, _⟩
    exact ⟨h1, le_of_lt h2⟩
  · rw [if_neg hlt]
    push_neg at hlt
    exact ⟨floor_to_step_dvd a stepM, hlt⟩

theorem segStart_eq_of_not_dvd (a stepM : Int) (h : 0 < stepM) (hd : ¬ (stepM * 60) ∣ a) :
    segStart a stepM = ceil_to_step a stepM := by
  unfold segStart
  rw [if_pos (floor_to_step_lt_of_not_dvd a stepM h hd)]

/-! ### Segmentize and gap-emission specs -/

theorem segmentize_mem (a b stepM : Int) :
    ∀ p ∈ segmentize a b stepM,
      0 < stepM * 60 ∧ segStart a stepM ≤ p.1 ∧ p.1 < p.2 ∧ p.2 ≤ b ∧
        p.2 ≤ p.1 + stepM * 60 ∧ (stepM * 60) ∣ (p.1 - segStart a stepM) := by
  intro p hp
  unfold segmentize at hp
  by_cases hab : a ≥ b
  · rw [if_pos hab] at hp
    simp at hp
  · rw [if_neg hab] at hp
    exact segLoop_mem b (stepM * 60) (segStart a stepM) p hp

theorem segmentize_pairwise (a b stepM : Int) :
    (segmentize a b stepM).Pairwise fun p q => p.2 ≤ q.1 := by
  unfold segmentize
  by_cases hab : a ≥ b
  · rw [if_pos hab]
    exact List.Pairwise.nil
  · rw [if_neg hab]
    exact segLoop_pairwise b (stepM * 60) (segStart a stepM)

theorem segmentize_ne_nil (a b stepM : Int) (h : 0 < stepM) (hab : a < b) :
    segmentize a b stepM ≠ [] ↔ segStart a stepM < b := by
  unfold segmentize
  rw [if_neg (by omega)]
  rw [segLoop_ne_nil]
  constructor
  · intro hh
    exact hh.1
  · intro hh
    exact ⟨hh, by positivity⟩

theorem emitGap_mem (cid reason : String) (minGap stepM cursor b : Int) :
    ∀ sl ∈ emitGap cid reason minGap stepM cursor b,
      sl.channel_id = cid ∧ sl.kind = "placeholder" ∧ sl.event_id = none ∧
        sl.placeholder_reason = some reason ∧
        cursor ≤ sl.start ∧ sl.start < sl.stop ∧ sl.stop ≤ b ∧
        segStart cursor stepM ≤ sl.start ∧ (stepM * 60) ∣ (sl.start - segStart cursor stepM) := by
  intro sl hsl
  unfold emitGap at hsl
  by_cases hg : cursor < b ∧ minGap ≤ b - cursor
  · rw [if_pos hg] at hsl
    rcases List.mem_map.mp hsl with ⟨p, hp, hmk⟩
    rcases segmentize_mem cursor b stepM p hp with ⟨hs60, h1, h2, h3, _, h5⟩
    have hM : 0 < stepM := by omega
    have hgs := (segStart_spec cursor stepM hM).2
    subst hmk
    have hcur : cursor ≤ p.1 := by omega
    exact ⟨rfl, rfl, rfl, rfl, hcur, h2, h3, h1, h5⟩
  · rw [if_neg hg] at hsl
    simp at hsl

theorem emitGap_pairwise (cid reason : String) (minGap stepM cursor b : Int) :
    (emitGap cid reason minGap stepM cursor b).Pairwise slotBefore := by
  unfold emitGap
  by_cases hg : cursor < b ∧ minGap ≤ b - cursor
  · rw [if_pos hg]
    refine List.Pairwise.map _ ?_ (segmentize_pairwise cursor b stepM)
    intro p q hpq
    exact hpq
  · rw [if_neg hg]
    exact List.Pairwise.nil

/-- C10: properties of the grid segmentation of a gap `[a, b)` with `a < b`
and a positive step: the chunks are pairwise disjoint in ascending order,
nonempty and contained in `[a, b)`, every chunk start lies on the alignment
grid; when `a` is off-grid the chunks all start at or after
`_ceil_to_step(a)` — the least grid point strictly after `a`, so
`[a, ceil(a))` is covered by no chunk (and the gap pass emits nothing there
even when the gap meets `min_gap`); the first chunk, when one exists, starts
exactly at that boundary, and a gap ending at or before it yields no chunk
at all. -/
theorem c10_segmentize_grid (a b stepM : Int) (h : 0 < stepM) (hab : a < b) :
    (segmentize a b stepM).Pairwise (fun p q => p.2 ≤ q.1) ∧
    (∀ p ∈ segmentize a b stepM, a ≤ p.1 ∧ p.1 < p.2 ∧ p.2 ≤ b) ∧
    (∀ p ∈ segmentize a b stepM, (stepM * 60) ∣ p.1) ∧
    (¬ (stepM * 60) ∣ a →
      ((stepM * 60) ∣ ceil_to_step a stepM ∧ a < ceil_to_step a stepM ∧
        (∀ x : Int, (stepM * 60) ∣ x → a < x → ceil_to_step a stepM ≤ x) ∧
        (∀ p ∈ segmentize a b stepM, ceil_to_step a stepM ≤ p.1) ∧
        (∀ sl ∈ emitGap "c" "gap" 0 stepM a b, ceil_to_step a stepM ≤ sl.start) ∧
        (∀ p, (segmentize a b stepM).head? = some p → p.1 = ceil_to_step a stepM))) ∧
    (¬ (stepM * 60) ∣ a → b ≤ ceil_to_step a stepM → segmentize a b stepM = []) := by
  have hgs := segStart_spec a stepM h
  refine ⟨segmentize_pairwise a b stepM, ?_, ?_, ?_, ?_⟩
  · intro p hp
    rcases segmentize_mem a b stepM p hp with ⟨_, h1, h2, h3, _, _⟩
    exact ⟨le_trans hgs.2 h1, h2, h3⟩
  · intro p hp
    rcases segmentize_mem a b stepM p hp with ⟨_, h1, _, _, _, h5⟩
    rcases hgs.1 with ⟨k, hk⟩
    rcases h5 with ⟨j, hj⟩
    exact ⟨k + j, by linarith [hj, hk]⟩
  · intro hd
    have hseq := segStart_eq_of_not_dvd a stepM h hd
    rcases ceil_to_step_spec a stepM h hd with ⟨hc1, hc2, _, hc4⟩
    refine ⟨hc1, hc2, hc4, ?_, ?_, ?_⟩
    · intro p hp
      have := (segmentize_mem a b stepM p hp).2.1
      omega
    · intro sl hsl
      have := (emitGap_mem "c" "gap" 0 stepM a b sl hsl).2.2.2.2.2.2.2.1
      omega
    · intro p hp
      unfold segmentize at hp
      rw [if_neg (by omega)] at hp
      rw [hseq] at hp
      by_cases hlt : ceil_to_step a stepM < b
      · rw [segLoop_head b (stepM * 60) _ ⟨hlt, by positivity⟩] at hp
        injection hp with hp
        rw [← hp]
      · rw [segLoop_eq, if_neg (by push_neg at hlt; omega)] at hp
        simp at hp
  · intro hd hble
    have hseq := segStart_eq_of_not_dvd a stepM h hd
    unfold segmentize
    rw [if_neg (by omega), hseq, segLoop_eq, if_neg (by omega)]

/-- C10 witness: a concrete off-grid gap — cursor 10:07, gap end 10:20,
30-minute grid: `ceil` is 10:30 and no chunk is emitted. -/
theorem c10_witness :
    (0 : Int) < 30 ∧ (36420 : Int) < 37200 ∧
    (¬ ((30 : Int) * 60) ∣ 36420 → (37200 : Int) ≤ ceil_to_step 36420 30 →
      segmentize 36420 37200 30 = []) :=
  ⟨by decide, by decide, (c10_segmentize_grid 36420 37200 30 (by decide) (by decide)).2.2.2.2⟩

/-- C5 (amended): the gap filler emits its grid chunks for a gap
`[cursor, b)` exactly when the gap is at least `min_gap`; gaps strictly
smaller than `min_gap` never produce a placeholder.  The emission is
nonempty iff additionally the first grid boundary at or after the cursor
(`segStart`) lies strictly before the gap's end — a gap that is long enough
but ends at or before that boundary produces no placeholder either (the
corner the original iff misses). -/
theorem c5_gap_emission (cid reason : String) (minGap stepM cursor b : Int)
    (h : 0 < stepM) :
    (b - cursor < minGap → emitGap cid reason minGap stepM cursor b = []) ∧
    (emitGap cid reason minGap stepM cursor b ≠ [] ↔
      cursor < b ∧ minGap ≤ b - cursor ∧ segStart cursor stepM < b) := by
  constructor
  · intro hlt
    unfold emitGap
    rw [if_neg]
    intro hg
    omega
  · unfold emitGap
    by_cases hg : cursor < b ∧ minGap ≤ b - cursor
    · rw [if_pos hg]
      rw [ne_eq, List.map_eq_nil_iff]
      rw [← ne_eq, segmentize_ne_nil cursor b stepM h hg.1]
      constructor
      · intro hh
        exact ⟨hg.1, hg.2, hh⟩
      · intro hh
        exact hh.2.2
    · rw [if_neg hg]
      simp only [ne_eq, not_true_eq_false, false_iff]
      intro hh
      exact hg ⟨hh.1, hh.2.1⟩

/-- C5 amended witness: with `min_gap` 10 minutes and 30-minute grid, the
13-minute off-grid gap `[10:07, 10:20)` yields no placeholder, and a
4-minute gap is below `min_gap` so yields none either. -/
theorem c5_witness :
    (0 : Int) < 30 ∧
    ((37200 : Int) - 36420 < 780 → emitGap "c1" "gap" 780 30 36420 37200 = []) ∧
    (emitGap "c1" "gap" 600 30 36420 37200 ≠ [] ↔
      (36420 : Int) < 37200 ∧ (600 : Int) ≤ 37200 - 36420 ∧ segStart 36420 30 < 37200) :=
  ⟨by decide, (c5_gap_emission "c1" "gap" 780 30 36420 37200 (by decide)).1,
    (c5_gap_emission "c1" "gap" 600 30 36420 37200 (by decide)).2⟩

/-! ### Clean-up pass lemmas -/

theorem cleanLoopF_chain (cid : String) : ∀ (fuel : Nat) (l : List Slot),
    l.length ≤ fuel + 1 → l.Chain' slotBefore →
    cleanLoopF cid fuel l = (l, l.flatMap (stickyOf cid)) := by
  intro fuel
  induction fuel with
  | zero =>
    intro l hlen _
    match l with
    | [] => rfl
    | [c] => simp [cleanLoopF]
    | c :: n :: rest => simp at hlen
  | succ fuel ih =>
    intro l hlen hch
    match l with
    | [] => rfl
    | [c] => simp [cleanLoopF]
    | c :: n :: rest =>
      have hcb : slotBefore c n := (List.chain'_cons.mp hch).1
      have hov : ¬ c.stop > n.start := by
        unfold slotBefore at hcb
        omega
      have hrec := ih (n :: rest) (by simp at hlen ⊢; omega) (List.chain'_cons.mp hch).2
      simp only [cleanLoopF, if_neg hov, hrec]
      simp

theorem cleanLoop_chain (cid : String) (l : List Slot) (h : l.Chain' slotBefore) :
    cleanLoop cid l = (l, l.flatMap (stickyOf cid)) :=
  cleanLoopF_chain cid l.length l (by omega) h

/-- C6 (amended): the overlap-resolution pass never truncates a placeholder:
a slot that is not an event (`current["kind"] != "event"`) is always emitted
unchanged and the walk moves on — in particular a placeholder whose end
exceeds the next event's start passes through untouched.  (Repairs happen
only when an event precedes an overlapping placeholder: the placeholder's
start is moved to the event's end, or the pair is reduced when it is fully
covered.) -/
theorem c6_placeholder_passthrough (cid : String) (c n : Slot) (rest : List Slot)
    (hk : c.kind = "placeholder") :
    (cleanLoop cid (c :: n :: rest)).1 = c :: (cleanLoop cid (n :: rest)).1 ∧
    (cleanLoop cid (c :: n :: rest)).2 = (cleanLoop cid (n :: rest)).2 := by
  have hke : ¬ c.kind = "event" := by
    rw [hk]
    decide
  have hst : stickyOf cid c = [] := by
    unfold stickyOf
    rw [if_neg hke]
  have hlen : (c :: n :: rest).length = (n :: rest).length + 1 := by simp
  unfold cleanLoop
  rw [hlen]
  simp only [cleanLoopF, hst]
  by_cases hov : c.stop > n.start
  · rw [if_pos hov, if_neg (fun hc => hke hc.1), if_neg (fun hc => hke hc.1)]
    simp
  · rw [if_neg hov]
    simp

/-- C6 amended witness: the spec's example pair — placeholder
`[09:30, 10:30)` before event `[10:00, 10:30)` — passes through unchanged. -/
theorem c6_witness :
    (⟨"c1", none, 34200, 37800, "placeholder", some "gap"⟩ : Slot).kind = "placeholder" ∧
    (cleanLoop "c1" [⟨"c1", none, 34200, 37800, "placeholder", some "gap"⟩,
        ⟨"c1", some "e1", 36000, 37800, "event", none⟩]).1 =
      ⟨"c1", none, 34200, 37800, "placeholder", some "gap"⟩ ::
        (cleanLoop "c1" [(⟨"c1", some "e1", 36000, 37800, "event", none⟩ : Slot)]).1 :=
  ⟨rfl,
    (c6_placeholder_passthrough "c1" ⟨"c1", none, 34200, 37800, "placeholder", some "gap"⟩
      ⟨"c1", some "e1", 36000, 37800, "event", none⟩ [] rfl).1⟩

/-! ### Assoc-list lemmas -/

theorem slookup_isSome_iff {α : Type} (k : String) (l : List (String × α)) :
    (slookup k l).isSome = true ↔ k ∈ l.map Prod.fst := by
  induction l with
  | nil => simp [slookup]
  | cons p rest ih =>
    rcases p with ⟨k', v⟩
    simp only [slookup, List.map_cons, List.mem_cons]
    by_cases h : k' = k
    · subst h
      simp
    · rw [if_neg h, ih]
      constructor
      · intro hm
        exact Or.inr hm
      · rintro (rfl | hm)
        · exact absurd rfl h
        · exact hm

theorem slookup_append {α : Type} (k : String) (l1 l2 : List (String × α)) :
    slookup k (l1 ++ l2) =
      if (slookup k l1).isSome then slookup k l1 else slookup k l2 := by
  induction l1 with
  | nil => simp [slookup]
  | cons p rest ih =>
    rcases p with ⟨k', v⟩
    simp only [List.cons_append, slookup]
    by_cases h : k' = k
    · simp [h]
    · rw [if_neg h, if_neg h]
      exact ih

theorem updateLaneWith_of_none (f : List Slot → List Slot)
    (tls : List (String × List Slot)) (cid : String)
    (h : slookup cid tls = none) : updateLaneWith f tls cid = tls := by
  induction tls with
  | nil => rfl
  | cons p rest ih =>
    rcases p with ⟨c, l⟩
    simp only [slookup] at h
    simp only [updateLaneWith]
    by_cases hc : c = cid
    · rw [if_pos hc] at h
      exact absurd h (by simp)
    · rw [if_neg hc] at h
      rw [if_neg hc, ih h]

theorem slookup_updateLaneWith_self (f : List Slot → List Slot)
    (tls : List (String × List Slot)) (cid : String) (l : List Slot)
    (h : slookup cid tls = some l) :
    slookup cid (updateLaneWith f tls cid) = some (f l) := by
  induction tls with
  | nil => simp [slookup] at h
  | cons p rest ih =>
    rcases p with ⟨c, l'⟩
    simp only [slookup] at h
    simp only [updateLaneWith]
    by_cases hc : c = cid
    · rw [if_pos hc] at h
      rw [if_pos hc]
      simp only [slookup, if_pos hc]
      injection h with h
      rw [h]
    · rw [if_neg hc] at h
      rw [if_neg hc]
      simp only [slookup, if_neg hc]
      exact ih h

theorem slookup_updateLaneWith_other (f : List Slot → List Slot)
    (tls : List (String × List Slot)) (cid c' : String) (h : c' ≠ cid) :
    slookup c' (updateLaneWith f tls cid) = slookup c' tls := by
  induction tls with
  | nil => rfl
  | cons p rest ih =>
    rcases p with ⟨c, l⟩
    simp only [updateLaneWith]
    by_cases hc : c = cid
    · rw [if_pos hc]
      simp only [slookup]
      rw [if_neg (by rw [hc]; exact fun hh => h hh.symm),
        if_neg (by rw [hc]; exact fun hh => h hh.symm)]
    · rw [if_neg hc]
      simp only [slookup]
      by_cases hc' : c = c'
      · rw [if_pos hc', if_pos hc']
      · rw [if_neg hc', if_neg hc']
        exact ih

theorem laneOf_eq_of_some (tls : List (String × List Slot)) (cid : String)
    (l : List Slot) (h : slookup cid tls = some l) : laneOf tls cid = l := by
  unfold laneOf
  rw [h]
  rfl

theorem laneOf_eq_of_none (tls : List (String × List Slot)) (cid : String)
    (h : slookup cid tls = none) : laneOf tls cid = [] := by
  unfold laneOf
  rw [h]
  rfl

/-! ### Normalization and lane-freedom lemmas -/

theorem normalizeEvent_some (wstart wend padS padE : Int) (liveOnly : Bool)
    (e : Event) (ne : NormEvent)
    (h : normalizeEvent wstart wend padS padE liveOnly e = some ne) :
    ne.ev = e ∧ ne.s < ne.t ∧ wstart ≤ ne.s := by
  unfold normalizeEvent at h
  split_ifs at h with h1 h2
  injection h with h
  subst h
  exact ⟨rfl, not_le.mp h2, le_max_right _ _⟩

theorem laneFree_iff (l : List Slot) (s t : Int) :
    laneFree l s t = true ↔ ∀ sl ∈ l, t ≤ sl.start ∨ sl.stop ≤ s := by
  unfold laneFree
  rw [List.all_eq_true]
  constructor
  · intro h sl hsl
    have := h sl hsl
    simpa [ge_iff_le] using this
  · intro h sl hsl
    have := h sl hsl
    simpa [ge_iff_le] using this

/-! ### Packing preserves the lane invariant -/

theorem TlsOk_mkTimelines_aux :
    ∀ (cs : List String) (acc : List (String × List Slot)),
      (∀ c l, slookup c acc = some l → l = []) →
      (∀ c l, slookup c
          (cs.foldl (fun acc c => if (slookup c acc).isSome then acc else acc ++ [(c, [])]) acc) =
            some l → l = []) := by
  intro cs
  induction cs with
  | nil => intro acc hacc; exact hacc
  | cons c0 cs ih =>
    intro acc hacc
    simp only [List.foldl_cons]
    apply ih
    by_cases hs : (slookup c0 acc).isSome
    · rw [if_pos hs]
      exact hacc
    · rw [if_neg hs]
      intro c l hc
      rw [slookup_append] at hc
      by_cases hin : (slookup c acc).isSome
      · rw [if_pos hin] at hc
        exact hacc c l hc
      · rw [if_neg hin] at hc
        simp only [slookup] at hc
        by_cases hcc : c0 = c
        · rw [if_pos hcc] at hc
          injection hc with hc
          exact hc.symm
        · rw [if_neg hcc] at hc
          simp [slookup] at hc

theorem TlsOk_mkTimelines (events : List Event) (wstart wend padS padE : Int)
    (liveOnly : Bool) (channels : List String) :
    TlsOk events wstart wend padS padE liveOnly (mkTimelines channels) := by
  intro c l hc
  have := TlsOk_mkTimelines_aux channels []
    (by intro c l h; simp [slookup] at h) c l hc
  subst this
  exact ⟨List.Pairwise.nil, by simp⟩

theorem TlsOk_updateLaneApp (events : List Event) (wstart wend padS padE : Int)
    (liveOnly : Bool) (tls : List (String × List Slot)) (cid : String) (ne : NormEvent)
    (ht : TlsOk events wstart wend padS padE liveOnly tls)
    (horig : ∃ e ∈ events, normalizeEvent wstart wend padS padE liveOnly e = some ne)
    (hfree : laneFree (laneOf tls cid) ne.s ne.t = true) :
    TlsOk events wstart wend padS padE liveOnly (updateLaneApp tls cid (evSlot cid ne)) := by
  rcases horig with ⟨e, he, hne⟩
  rcases normalizeEvent_some wstart wend padS padE liveOnly e ne hne with ⟨hev, hst, hws⟩
  intro c l hc
  unfold updateLaneApp at hc
  by_cases hcc : c = cid
  · subst hcc
    cases hl : slookup c tls with
    | none =>
      rw [updateLaneWith_of_none _ _ _ hl] at hc
      rw [hl] at hc
      exact absurd hc (by simp)
    | some l0 =>
      rw [slookup_updateLaneWith_self _ tls c l0 hl] at hc
      injection hc with hc
      subst hc
      rcases ht c l0 hl with ⟨hpw, hok⟩
      rw [laneOf_eq_of_some tls c l0 hl] at hfree
      constructor
      · rw [List.pairwise_append]
        refine ⟨hpw, by simp, ?_⟩
        intro a ha b hb
        simp only [List.mem_singleton] at hb
        subst hb
        rcases (laneFree_iff l0 ne.s ne.t).mp hfree a ha with hcase | hcase
        · exact Or.inr hcase
        · exact Or.inl hcase
      · intro sl hsl
        rcases List.mem_append.mp hsl with hsl | hsl
        · exact hok sl hsl
        · simp only [List.mem_singleton] at hsl
          subst hsl
          refine ⟨rfl, hst, hws, ?_⟩
          intro _
          refine ⟨e, he, ne.s, ne.t, ?_, rfl, rfl⟩
          rw [show (⟨e, ne.s, ne.t⟩ : NormEvent) = ne by
            rcases ne with ⟨nev, ns, nt⟩
            simp only [] at hev ⊢
            rw [hev]]
          exact hne
  · cases hl : slookup cid tls with
    | none =>
      rw [updateLaneWith_of_none _ _ _ hl] at hc
      exact ht c l hc
    | some l0 =>
      rw [slookup_updateLaneWith_other _ tls cid c hcc] at hc
      exact ht c l hc

theorem assignTarget_free (channels : List String) (sticky : List (String × String))
    (tls : List (String × List Slot)) (ne : NormEvent) (cid : String)
    (h : assignTarget channels sticky tls ne = some cid) :
    laneFree (laneOf tls cid) ne.s ne.t = true := by
  unfold assignTarget at h
  cases hs : slookup ne.ev.id sticky with
  | none =>
    rw [hs] at h
    dsimp only at h
    have hfind := List.find?_some h
    simpa using hfind
  | some p =>
    rw [hs] at h
    dsimp only at h
    split_ifs at h with hcond
    · injection h with h
      subst h
      exact hcond.2.2
    · have hfind := List.find?_some h
      simpa using hfind

theorem assignEvent_ok (events : List Event) (wstart wend padS padE : Int)
    (liveOnly : Bool) (channels : List String) (sticky : List (String × String))
    (tls : List (String × List Slot)) (ne : NormEvent)
    (ht : TlsOk events wstart wend padS padE liveOnly tls)
    (horig : ∃ e ∈ events, normalizeEvent wstart wend padS padE liveOnly e = some ne) :
    TlsOk events wstart wend padS padE liveOnly (assignEvent channels sticky tls ne) := by
  unfold assignEvent
  cases hT : assignTarget channels sticky tls ne with
  | none => exact ht
  | some cid =>
    dsimp only
    by_cases hcid : cid = ""
    · rw [if_pos hcid]
      exact ht
    · rw [if_neg hcid]
      exact TlsOk_updateLaneApp events wstart wend padS padE liveOnly tls cid ne ht horig
        (assignTarget_free channels sticky tls ne cid hT)

/-! ### Gap filling preserves and sorts the lane invariant -/

theorem startLe_total (a b : Slot) (h : startLe a b = false) : startLe b a = true := by
  simp only [startLe, decide_eq_false_iff_not, not_le] at h
  simp only [startLe, decide_eq_true_eq]
  omega

theorem startLe_trans (a b c : Slot) (h1 : startLe a b = true) (h2 : startLe b c = true) :
    startLe a c = true := by
  simp only [startLe, decide_eq_true_eq] at h1 h2 ⊢
  omega

theorem LaneChain_to_LaneDisj (events : List Event) (wstart wend padS padE : Int)
    (liveOnly : Bool) (cid : String) (l : List Slot)
    (h : LaneChain events wstart wend padS padE liveOnly cid l) :
    LaneDisj events wstart wend padS padE liveOnly cid l :=
  ⟨h.1.imp fun hb => Or.inl hb, h.2⟩

theorem sortLe_startLe_chain (events : List Event) (wstart wend padS padE : Int)
    (liveOnly : Bool) (cid : String) (l : List Slot)
    (h : LaneDisj events wstart wend padS padE liveOnly cid l) :
    LaneChain events wstart wend padS padE liveOnly cid (sortLe startLe l) := by
  rcases h with ⟨hpw, hok⟩
  have hperm := sortLe_perm startLe l
  have hok' : ∀ sl ∈ sortLe startLe l, SlotOk events wstart wend padS padE liveOnly cid sl :=
    fun sl hs => hok sl (hperm.mem_iff.mp hs)
  have hdisj : (sortLe startLe l).Pairwise disjSlot := by
    refine hpw.perm hperm.symm ?_
    intro x y hxy
    unfold disjSlot at hxy ⊢
    tauto
  have hsorted : (sortLe startLe l).Pairwise (fun a b => startLe a b = true) :=
    sortLe_pairwise startLe startLe_total startLe_trans l
  refine ⟨?_, hok'⟩
  have hboth := hdisj.and hsorted
  refine hboth.imp_of_mem ?_
  intro a b ha hb hab
  rcases hab with ⟨hd, hle⟩
  simp only [startLe, decide_eq_true_eq] at hle
  have hbne := (hok' b hb).2.1
  unfold slotBefore
  unfold disjSlot at hd
  omega

theorem fillLoop_spec (events : List Event) (wstart wend padS padE : Int) (liveOnly : Bool)
    (cid : String) (minGap stepM : Int) :
    ∀ (l : List Slot) (c : Int),
      l.Pairwise slotBefore →
      (∀ x ∈ l, SlotOk events wstart wend padS padE liveOnly cid x) →
      (∀ x ∈ l, c ≤ x.start) → wstart ≤ c →
      ((fillLoop cid minGap stepM c l).1.Pairwise slotBefore ∧
        (∀ x ∈ (fillLoop cid minGap stepM c l).1,
          SlotOk events wstart wend padS padE liveOnly cid x ∧ c ≤ x.start ∧
            x.stop ≤ (fillLoop cid minGap stepM c l).2) ∧
        c ≤ (fillLoop cid minGap stepM c l).2) := by
  intro l
  induction l with
  | nil =>
    intro c _ _ _ _
    refine ⟨List.Pairwise.nil, ?_, le_refl c⟩
    intro x hx
    simp [fillLoop] at hx
  | cons s rest ih =>
    intro c hpw hok hc hwc
    rcases List.pairwise_cons.mp hpw with ⟨hhead, htail⟩
    have hs_ok := hok s (by simp)
    have hIH := ih (max c s.stop) htail
      (fun x hx => hok x (by simp [hx]))
      (fun x hx => max_le (hc x (by simp [hx])) (hhead x hx))
      (le_trans hwc (le_max_left _ _))
    have hfe : fillLoop cid minGap stepM c (s :: rest) =
        (emitGap cid "gap" minGap stepM c s.start ++
          s :: (fillLoop cid minGap stepM (max c s.stop) rest).1,
          (fillLoop cid minGap stepM (max c s.stop) rest).2) := rfl
    rw [hfe]
    have hpre := emitGap_mem cid "gap" minGap stepM c s.start
    have hfin := hIH.2.2
    refine ⟨?_, ?_, le_trans (le_max_left _ _) hfin⟩
    · rw [List.pairwise_append]
      refine ⟨emitGap_pairwise cid "gap" minGap stepM c s.start, ?_, ?_⟩
      · refine List.pairwise_cons.mpr ⟨?_, hIH.1⟩
        intro x hx
        have := (hIH.2.1 x hx).2.1
        unfold slotBefore
        omega
      · intro a ha b hb
        have has := (hpre a ha).2.2.2.2.2.2.1
        rcases List.mem_cons.mp hb with rfl | hb
        · exact has
        · have hbs := (hIH.2.1 b hb).2.1
          have hsne := hs_ok.2.1
          unfold slotBefore
          omega
    · intro x hx
      rcases List.mem_append.mp hx with hx | hx
      · rcases hpre x hx with ⟨hch, hk, _, _, hcs, hne, hsb, _, _⟩
        have hsne := hs_ok.2.1
        refine ⟨⟨hch, hne, by omega, ?_⟩, hcs, by omega⟩
        intro hev
        rw [hk] at hev
        exact absurd hev (by decide)
      · rcases List.mem_cons.mp hx with rfl | hx
        · exact ⟨hs_ok, hc x (by simp), by
            have hsne := hs_ok.2.1
            omega⟩
        · rcases hIH.2.1 x hx with ⟨hxo, hxc, hxf⟩
          exact ⟨hxo, le_trans (le_max_left _ _) hxc, hxf⟩

theorem fillLane_chain (events : List Event) (wstart wend padS padE : Int)
    (liveOnly : Bool) (cid : String) (minGap stepM : Int) (l : List Slot)
    (h : LaneDisj events wstart wend padS padE liveOnly cid l) :
    LaneChain events wstart wend padS padE liveOnly cid
      (fillLane cid wstart wend minGap stepM l) := by
  rcases sortLe_startLe_chain events wstart wend padS padE liveOnly cid l h with ⟨hpw, hok⟩
  have hstart : ∀ x ∈ sortLe startLe l, wstart ≤ x.start := fun x hx => (hok x hx).2.2.1
  have hmain := fillLoop_spec events wstart wend padS padE liveOnly cid minGap stepM
    (sortLe startLe l) wstart hpw hok hstart (le_refl wstart)
  have hfl : fillLane cid wstart wend minGap stepM l =
      (fillLoop cid minGap stepM wstart (sortLe startLe l)).1 ++
        emitGap cid "tail" minGap stepM
          (fillLoop cid minGap stepM wstart (sortLe startLe l)).2 wend := rfl
  rw [hfl]
  have htail := emitGap_mem cid "tail" minGap stepM
    (fillLoop cid minGap stepM wstart (sortLe startLe l)).2 wend
  constructor
  · rw [List.pairwise_append]
    refine ⟨hmain.1, emitGap_pairwise cid "tail" minGap stepM _ wend, ?_⟩
    intro a ha b hb
    have hstop := (hmain.2.1 a ha).2.2
    have hbst := (htail b hb).2.2.2.2.1
    unfold slotBefore
    omega
  · intro sl hsl
    rcases List.mem_append.mp hsl with hsl | hsl
    · exact (hmain.2.1 sl hsl).1
    · rcases htail sl hsl with ⟨hch, hk, _, _, hcs, hne, _, _, _⟩
      refine ⟨hch, hne, le_trans hmain.2.2 hcs, ?_⟩
      intro hev
      rw [hk] at hev
      exact absurd hev (by decide)

theorem TlsOk_fillStep (events : List Event) (wstart wend padS padE : Int)
    (liveOnly : Bool) (minGap alignM : Int) (tls : List (String × List Slot)) (c0 : String)
    (ht : TlsOk events wstart wend padS padE liveOnly tls) :
    TlsOk events wstart wend padS padE liveOnly
      (updateLaneWith (fillLane c0 wstart wend minGap alignM) tls c0) := by
  intro c' l' h'
  by_cases hcc : c' = c0
  · subst hcc
    cases hl : slookup c' tls with
    | none =>
      rw [updateLaneWith_of_none _ _ _ hl] at h'
      exact ht c' l' h'
    | some l0 =>
      rw [slookup_updateLaneWith_self _ tls c' l0 hl] at h'
      injection h' with h'
      subst h'
      exact LaneChain_to_LaneDisj events wstart wend padS padE liveOnly c' _
        (fillLane_chain events wstart wend padS padE liveOnly c' minGap alignM l0
          (ht c' l0 hl))
  · rw [slookup_updateLaneWith_other _ tls c0 c' hcc] at h'
    exact ht c' l' h'

theorem fill_fold_ok (events : List Event) (wstart wend padS padE : Int)
    (liveOnly : Bool) (minGap alignM : Int) :
    ∀ (cs : List String) (tls : List (String × List Slot)),
      TlsOk events wstart wend padS padE liveOnly tls →
      TlsOk events wstart wend padS padE liveOnly
        (cs.foldl (fun tls cid => updateLaneWith (fillLane cid wstart wend minGap alignM) tls cid) tls) := by
  intro cs
  induction cs with
  | nil => intro tls ht; exact ht
  | cons c0 cs ih =>
    intro tls ht
    simp only [List.foldl_cons]
    exact ih _ (TlsOk_fillStep events wstart wend padS padE liveOnly minGap alignM tls c0 ht)

theorem fill_fold_lane (events : List Event) (wstart wend padS padE : Int)
    (liveOnly : Bool) (minGap alignM : Int) :
    ∀ (cs : List String) (tls : List (String × List Slot)) (cid : String),
      TlsOk events wstart wend padS padE liveOnly tls →
      (LaneChain events wstart wend padS padE liveOnly cid (laneOf tls cid) ∨ cid ∈ cs) →
      LaneChain events wstart wend padS padE liveOnly cid
        (laneOf (cs.foldl
          (fun tls cid => updateLaneWith (fillLane cid wstart wend minGap alignM) tls cid) tls) cid) := by
  intro cs
  induction cs with
  | nil =>
    intro tls cid ht hd
    rcases hd with hd | hd
    · exact hd
    · simp at hd
  | cons c0 cs ih =>
    intro tls cid ht hd
    simp only [List.foldl_cons]
    have ht' := TlsOk_fillStep events wstart wend padS padE liveOnly minGap alignM tls c0 ht
    apply ih _ cid ht'
    by_cases hcc : cid = c0
    · subst hcc
      left
      cases hl : slookup cid tls with
      | none =>
        rw [updateLaneWith_of_none _ _ _ hl, laneOf_eq_of_none tls cid hl]
        exact ⟨List.Pairwise.nil, by simp⟩
      | some l0 =>
        rw [laneOf_eq_of_some _ cid _ (slookup_updateLaneWith_self _ tls cid l0 hl)]
        exact fillLane_chain events wstart wend padS padE liveOnly cid minGap alignM l0
          (ht cid l0 hl)
    · rw [show laneOf (updateLaneWith (fillLane c0 wstart wend minGap alignM) tls c0) cid =
          laneOf tls cid by
        unfold laneOf
        rw [slookup_updateLaneWith_other _ tls c0 cid hcc]]
      rcases hd with hd | hd
      · left
        exact hd
      · right
        rcases List.mem_cons.mp hd with h | h
        · exact absurd h hcc
        · exact h

theorem packFold_ok (events : List Event) (wstart wend padS padE : Int)
    (liveOnly : Bool) (channels : List String) (sticky : List (String × String)) :
    ∀ (nes : List NormEvent) (tls : List (String × List Slot)),
      TlsOk events wstart wend padS padE liveOnly tls →
      (∀ ne ∈ nes, ∃ e ∈ events, normalizeEvent wstart wend padS padE liveOnly e = some ne) →
      TlsOk events wstart wend padS padE liveOnly
        (nes.foldl (fun tls ne => assignEvent channels sticky tls ne) tls) := by
  intro nes
  induction nes with
  | nil => intro tls ht _; exact ht
  | cons ne nes ih =>
    intro tls ht hmem
    simp only [List.foldl_cons]
    exact ih (assignEvent channels sticky tls ne)
      (assignEvent_ok events wstart wend padS padE liveOnly channels sticky tls ne ht
        (hmem ne (by simp)))
      (fun ne' h => hmem ne' (by simp [h]))

/-! ### String-order lemmas (for the final `(channel_id, start)` sort) -/

theorem clt_irrefl : ∀ l : List Char, charListLt l l = false := by
  intro l
  induction l with
  | nil => rfl
  | cons a as ih => simp [charListLt, ih]

theorem clt_cases : ∀ as bs : List Char,
    charListLt as bs = true ∨ charListLt bs as = true ∨ as = bs := by
  intro as
  induction as with
  | nil =>
    intro bs
    cases bs with
    | nil => right; right; rfl
    | cons b bs => left; rfl
  | cons a as ih =>
    intro bs
    cases bs with
    | nil => right; left; rfl
    | cons b bs =>
      rcases lt_trichotomy a b with h | h | h
      · left
        simp [charListLt, h]
      · subst h
        rcases ih bs with h | h | h
        · left
          simp [charListLt, h]
        · right; left
          simp [charListLt, h]
        · right; right
          rw [h]
      · right; left
        simp [charListLt, h]

theorem clt_trans : ∀ as bs cs : List Char,
    charListLt as bs = true → charListLt bs cs = true → charListLt as cs = true := by
  intro as
  induction as with
  | nil =>
    intro bs cs h1 h2
    cases bs with
    | nil => simp [charListLt] at h1
    | cons b bs =>
      cases cs with
      | nil => simp [charListLt] at h2
      | cons c cs => rfl
  | cons a as ih =>
    intro bs cs h1 h2
    cases bs with
    | nil => simp [charListLt] at h1
    | cons b bs =>
      cases cs with
      | nil => simp [charListLt] at h2
      | cons c cs =>
        simp only [charListLt] at h1 h2 ⊢
        by_cases hab : a < b
        · by_cases hbc : b < c
          · rw [if_pos (lt_trans hab hbc)]
          · rw [if_neg hbc] at h2
            by_cases hcb : c < b
            · rw [if_pos hcb] at h2
              exact absurd h2 (by simp)
            · have hbc' : b = c := le_antisymm (not_lt.mp hcb) (not_lt.mp hbc)
              subst hbc'
              rw [if_pos hab]
        · rw [if_neg hab] at h1
          by_cases hba : b < a
          · rw [if_pos hba] at h1
            exact absurd h1 (by simp)
          · have hab' : a = b := le_antisymm (not_lt.mp hba) (not_lt.mp hab)
            subst hab'
            rw [if_neg hab] at h1
            by_cases hac : a < c
            · rw [if_pos hac]
            · rw [if_neg hac] at h2 ⊢
              by_cases hca : c < a
              · rw [if_pos hca] at h2
                exact absurd h2 (by simp)
              · rw [if_neg hca] at h2 ⊢
                exact ih bs cs h1 h2

theorem strLtB_irrefl (s : String) : strLtB s s = false := clt_irrefl s.data

theorem strLtB_cases (a b : String) : strLtB a b = true ∨ strLtB b a = true ∨ a = b := by
  rcases clt_cases a.data b.data with h | h | h
  · left
    exact h
  · right; left
    exact h
  · right; right
    cases a with
    | mk da =>
      cases b with
      | mk db =>
        simp only [] at h
        rw [h]

theorem strLtB_trans (a b c : String) (h1 : strLtB a b = true) (h2 : strLtB b c = true) :
    strLtB a c = true :=
  clt_trans a.data b.data c.data h1 h2

theorem snapLe_total (a b : Slot) (h : snapLe a b = false) : snapLe b a = true := by
  simp only [snapLe, decide_eq_false_iff_not, not_or, not_and] at h
  simp only [snapLe, decide_eq_true_eq]
  rcases strLtB_cases a.channel_id b.channel_id with hlt | hlt | heq
  · exact absurd hlt h.1
  · left
    exact hlt
  · right
    refine ⟨heq.symm, ?_⟩
    have := h.2 heq
    omega

theorem snapLe_trans (a b c : Slot) (h1 : snapLe a b = true) (h2 : snapLe b c = true) :
    snapLe a c = true := by
  simp only [snapLe, decide_eq_true_eq] at h1 h2 ⊢
  rcases h1 with h1 | ⟨h1e, h1l⟩
  · rcases h2 with h2 | ⟨h2e, h2l⟩
    · left
      exact strLtB_trans _ _ _ h1 h2
    · left
      rw [← h2e]
      exact h1
  · rcases h2 with h2 | ⟨h2e, h2l⟩
    · left
      rw [h1e]
      exact h2
    · right
      exact ⟨h1e.trans h2e, le_trans h1l h2l⟩

/-! ### Clean-up is the identity on each (already-chained) lane -/

theorem cleanLane_eq (events : List Event) (wstart wend padS padE : Int)
    (liveOnly : Bool) (cid : String) (L : List Slot)
    (h : LaneChain events wstart wend padS padE liveOnly cid L) :
    sortLe cleanLe L = L ∧
    cleanLoop cid (sortLe cleanLe L) = (L, L.flatMap (stickyOf cid)) := by
  have hpwc : L.Pairwise fun a b => cleanLe a b = true := by
    refine h.1.imp_of_mem ?_
    intro a b ha _ hab
    have hane := (h.2 a ha).2.1
    simp only [cleanLe, decide_eq_true_eq]
    left
    unfold slotBefore at hab
    omega
  have hs := sortLe_eq_self cleanLe L hpwc
  refine ⟨hs, ?_⟩
  rw [hs]
  exact cleanLoop_chain cid L h.1.chain'

/-- Every lane of `filledTls` (for a channel id in the list) is a well-formed
start-ordered non-overlapping chain. -/
theorem filledTls_lane_chain (channels : List String) (events : List Event)
    (wstart wend minGap alignM : Int) (sticky : List (String × String))
    (padS padE : Int) (liveOnly : Bool) (cid : String) (hcid : cid ∈ channels) :
    LaneChain events wstart wend padS padE liveOnly cid
      (laneOf (filledTls channels events wstart wend minGap alignM sticky padS padE liveOnly) cid) := by
  unfold filledTls
  apply fill_fold_lane events wstart wend padS padE liveOnly minGap alignM channels _ cid
  · unfold packedTls
    apply packFold_ok
    · exact TlsOk_mkTimelines events wstart wend padS padE liveOnly channels
    · intro ne hne
      exact List.mem_filterMap.mp hne
  · right
    exact hcid

/-- The `cleaned` list: on distinct sub-lists of the channel list, slots of a
common lane are pairwise disjoint, and every slot is well-formed for some
channel. -/
theorem cleaned_facts (channels : List String) (events : List Event)
    (wstart wend minGap alignM : Int) (sticky : List (String × String))
    (padS padE : Int) (liveOnly : Bool) :
    ∀ cs : List String, cs.Nodup → (∀ c ∈ cs, c ∈ channels) →
      ((cs.flatMap fun cid =>
          (cleanLoop cid (sortLe cleanLe
            (laneOf (filledTls channels events wstart wend minGap alignM sticky padS padE liveOnly)
              cid))).1).Pairwise
        (fun a b => a.channel_id = b.channel_id → disjSlot a b) ∧
      (∀ sl ∈ cs.flatMap fun cid =>
          (cleanLoop cid (sortLe cleanLe
            (laneOf (filledTls channels events wstart wend minGap alignM sticky padS padE liveOnly)
              cid))).1,
        ∃ cid, sl.channel_id = cid ∧
          SlotOk events wstart wend padS padE liveOnly cid sl)) := by
  intro cs
  induction cs with
  | nil =>
    intro _ _
    constructor
    · simp
    · intro sl hsl
      simp at hsl
  | cons c0 cs ih =>
    intro hnd hsub
    have hnd' := List.nodup_cons.mp hnd
    have hlane := filledTls_lane_chain channels events wstart wend minGap alignM sticky
      padS padE liveOnly c0 (hsub c0 (by simp))
    have heq := cleanLane_eq events wstart wend padS padE liveOnly c0 _ hlane
    rcases ih hnd'.2 (fun c hc => hsub c (by simp [hc])) with ⟨ihpw, ihok⟩
    simp only [List.flatMap_cons]
    constructor
    · rw [List.pairwise_append]
      refine ⟨?_, ihpw, ?_⟩
      · rw [heq.2]
        refine hlane.1.imp ?_
        intro a b hab _
        exact Or.inl hab
      · intro a ha b hb
        rw [heq.2] at ha
        have hac : a.channel_id = c0 := (hlane.2 a ha).1
        rcases List.mem_flatMap.mp hb with ⟨c1, hc1, hb1⟩
        have hlane1 := filledTls_lane_chain channels events wstart wend minGap alignM sticky
          padS padE liveOnly c1 (hsub c1 (by simp [hc1]))
        have heq1 := cleanLane_eq events wstart wend padS padE liveOnly c1 _ hlane1
        rw [heq1.2] at hb1
        have hbc : b.channel_id = c1 := (hlane1.2 b hb1).1
        intro hcc
        have hcs : c0 = c1 := by rw [← hac, hcc, hbc]
        rw [← hcs] at hc1
        exact absurd hc1 hnd'.1
    · intro sl hsl
      rcases List.mem_append.mp hsl with hsl | hsl
      · rw [heq.2] at hsl
        exact ⟨c0, (hlane.2 sl hsl).1, hlane.2 sl hsl⟩
      · exact ihok sl hsl

/-- C1 (amended): for every event list, window, `min_gap`, paddings and
sticky map, a positive alignment step (a non-positive step never yields a
Python plan: `_floor_to_step` divides by zero for step 0 and `_segmentize`
does not terminate for negative steps), and a channel list with pairwise
distinct ids (true of the `channel` table, whose `id` is a primary key —
but not of arbitrary lists, see the counterexample), the slots of any
single lane in the produced plan are pairwise non-overlapping: in their
plan order (which is ordered by start), `slot[i].end ≤ slot[j].start` for
`i < j`. -/
theorem c1_lane_no_overlap (channels : List String) (events : List Event)
    (wstart wend minGap alignM : Int) (sticky : List (String × String))
    (padS padE : Int) (liveOnly : Bool) (cid : String)
    (hnd : channels.Nodup) (_hal : 0 < alignM) :
    ((buildPlan channels events wstart wend minGap alignM sticky padS padE liveOnly).1.filter
      fun s => s.channel_id == cid).Pairwise slotBefore := by
  have hcf := cleaned_facts channels events wstart wend minGap alignM sticky padS padE
    liveOnly channels hnd (fun c hc => hc)
  have hperm := sortLe_perm snapLe
    (cleanedSlots channels events wstart wend minGap alignM sticky padS padE liveOnly)
  have hPP : (sortLe snapLe
      (cleanedSlots channels events wstart wend minGap alignM sticky padS padE liveOnly)).Pairwise
      (fun a b => a.channel_id = b.channel_id → disjSlot a b) := by
    refine hcf.1.perm hperm.symm ?_
    intro x y hxy hc
    have := hxy hc.symm
    unfold disjSlot at this ⊢
    tauto
  have hsorted := sortLe_pairwise snapLe snapLe_total snapLe_trans
    (cleanedSlots channels events wstart wend minGap alignM sticky padS padE liveOnly)
  have hne : ∀ sl ∈ sortLe snapLe
      (cleanedSlots channels events wstart wend minGap alignM sticky padS padE liveOnly),
      sl.start < sl.stop := by
    intro sl hsl
    rcases hcf.2 sl (hperm.mem_iff.mp hsl) with ⟨c, _, hok⟩
    exact hok.2.1
  show ((sortLe snapLe
      (cleanedSlots channels events wstart wend minGap alignM sticky padS padE liveOnly)).filter
    fun s => s.channel_id == cid).Pairwise slotBefore
  have hboth := hPP.and hsorted
  have hfilt := hboth.filter fun s => s.channel_id == cid
  refine hfilt.imp_of_mem ?_
  intro a b ha hb hab
  have hamem := List.mem_filter.mp ha
  have hbmem := List.mem_filter.mp hb
  have haeq : a.channel_id = cid := by simpa using hamem.2
  have hbeq : b.channel_id = cid := by simpa using hbmem.2
  have hch : a.channel_id = b.channel_id := by rw [haeq, hbeq]
  rcases hab with ⟨hpp, hsl⟩
  have hd := hpp hch
  have hle : a.start ≤ b.start := by
    simp only [snapLe, decide_eq_true_eq] at hsl
    rcases hsl with hlt | ⟨_, hle⟩
    · rw [hch, strLtB_irrefl] at hlt
      exact absurd hlt (by simp)
    · exact hle
  have hbne : b.start < b.stop := hne b hbmem.1
  unfold slotBefore
  unfold disjSlot at hd
  omega

/-- C1 witness: a concrete single-lane build — one event inside the window,
gap and tail placeholders around it — has pairwise non-overlapping slots. -/
theorem c1_witness :
    (["c1"] : List String).Nodup ∧ (0 : Int) < 30 ∧
    ((buildPlan ["c1"] [⟨"e1", 3600, 5400, 0, 0⟩] 0 9000 600 30 [] 0 0 true).1.filter
      fun s => s.channel_id == "c1").Pairwise slotBefore :=
  ⟨by decide, by decide,
    c1_lane_no_overlap ["c1"] [⟨"e1", 3600, 5400, 0, 0⟩] 0 9000 600 30 [] 0 0 true "c1"
      (by decide) (by decide)⟩

/-- C4 (amended): every event slot of a produced plan carries exactly the
normalized (padded, window-clamped) interval of its source event — the start
is not floored and the end is not ceiled to the alignment grid
(`_floor_to_step`/`_ceil_to_step` are applied only to placeholder
segmentation, never to event slots). -/
theorem c4_event_slots_not_snapped (channels : List String) (events : List Event)
    (wstart wend minGap alignM : Int) (sticky : List (String × String))
    (padS padE : Int) (liveOnly : Bool) (_hal : 0 < alignM) :
    ∀ sl ∈ (buildPlan channels events wstart wend minGap alignM sticky padS padE liveOnly).1,
      sl.kind = "event" → OriginOf events wstart wend padS padE liveOnly sl := by
  intro sl hsl hev
  have hperm := sortLe_perm snapLe
    (cleanedSlots channels events wstart wend minGap alignM sticky padS padE liveOnly)
  have hmem : sl ∈ cleanedSlots channels events wstart wend minGap alignM sticky padS padE liveOnly :=
    hperm.mem_iff.mp hsl
  rcases List.mem_flatMap.mp hmem with ⟨cid, hcid, hsl2⟩
  have hlane := filledTls_lane_chain channels events wstart wend minGap alignM sticky
    padS padE liveOnly cid hcid
  have heq := cleanLane_eq events wstart wend padS padE liveOnly cid _ hlane
  rw [heq.2] at hsl2
  exact (hlane.2 sl hsl2).2.2.2 hev

/-- C4 amended witness: the unsnapped event slot `[10:05, 10:50)` of the
counterexample build originates from its event's normalized interval. -/
theorem c4_witness :
    (0 : Int) < 30 ∧
    (⟨"c1", some "e1", 36300, 39000, "event", none⟩ : Slot) ∈
      (buildPlan ["c1"] [⟨"e1", 36300, 39000, 0, 0⟩] 36000 39600 3600 30 [] 0 0 true).1 ∧
    OriginOf [⟨"e1", 36300, 39000, 0, 0⟩] 36000 39600 0 0 true
      ⟨"c1", some "e1", 36300, 39000, "event", none⟩ :=
  ⟨by decide, by decide,
    c4_event_slots_not_snapped ["c1"] [⟨"e1", 36300, 39000, 0, 0⟩] 36000 39600 3600 30 [] 0 0
      true (by decide) ⟨"c1", some "e1", 36300, 39000, "event", none⟩ (by decide) rfl⟩

/-- C2 (amended): for the packer state reached by `build_plan` (`timelines`
keyed by the channel list) and a channel list whose ids are nonempty strings
(an empty-string lane id makes the chosen target falsy and the event is
dropped instead — see the counterexample): if the sticky map has an entry
for the event's identity, that lane is in the channel list and no slot on it
overlaps `[start, end)`, the event slot is appended to the sticky lane;
otherwise it is appended to the first free lane in canonical order
(`find?` returns the first list element satisfying the predicate); and when
no lane is free the timelines are returned unchanged — the event is simply
absent and the build continues (`assignEvent` is total). -/
theorem c2_packer_assignment (channels : List String) (sticky : List (String × String))
    (tls : List (String × List Slot)) (ne : NormEvent)
    (hch : "" ∉ channels) (hk : tls.map Prod.fst = channels) :
    (∀ p, slookup ne.ev.id sticky = some p → p ∈ channels →
        laneFree (laneOf tls p) ne.s ne.t = true →
        assignEvent channels sticky tls ne = updateLaneApp tls p (evSlot p ne)) ∧
    ((∀ p, slookup ne.ev.id sticky = some p →
        ¬(p ∈ channels ∧ laneFree (laneOf tls p) ne.s ne.t = true)) →
      (∀ c, (channels.find? fun cid => laneFree (laneOf tls cid) ne.s ne.t) = some c →
        assignEvent channels sticky tls ne = updateLaneApp tls c (evSlot c ne)) ∧
      ((channels.find? fun cid => laneFree (laneOf tls cid) ne.s ne.t) = none →
        assignEvent channels sticky tls ne = tls)) := by
  have hiff : ∀ p, (slookup p tls).isSome = true ↔ p ∈ channels := by
    intro p
    rw [slookup_isSome_iff, hk]
  constructor
  · intro p hp hpc hfree
    have hpne : p ≠ "" := fun he => hch (he ▸ hpc)
    have htgt : assignTarget channels sticky tls ne = some p := by
      unfold assignTarget
      rw [hp]
      dsimp only
      rw [if_pos ⟨hpne, (hiff p).mpr hpc, hfree⟩]
    unfold assignEvent
    rw [htgt]
    dsimp only
    rw [if_neg hpne]
  · intro hmiss
    have htgt : assignTarget channels sticky tls ne =
        channels.find? fun cid => laneFree (laneOf tls cid) ne.s ne.t := by
      unfold assignTarget
      cases hs : slookup ne.ev.id sticky with
      | none => rfl
      | some p =>
        dsimp only
        rw [if_neg]
        intro hcond
        exact hmiss p hs ⟨(hiff p).mp hcond.2.1, hcond.2.2⟩
    constructor
    · intro c hc
      have hcne : c ≠ "" := fun he => hch (he ▸ List.mem_of_find?_eq_some hc)
      unfold assignEvent
      rw [htgt, hc]
      dsimp only
      rw [if_neg hcne]
    · intro hnone
      unfold assignEvent
      rw [htgt, hnone]

/-- C2 amended witness: a sticky entry pointing at the free lane `"c2"` is
honored by the packer. -/
theorem c2_witness :
    ("" ∉ ["c1", "c2"]) ∧
    (mkTimelines ["c1", "c2"]).map Prod.fst = ["c1", "c2"] ∧
    slookup "e1" [("e1", "c2")] = some "c2" ∧
    assignEvent ["c1", "c2"] [("e1", "c2")] (mkTimelines ["c1", "c2"])
        ⟨⟨"e1", 0, 3600, 0, 0⟩, 0, 3600⟩ =
      updateLaneApp (mkTimelines ["c1", "c2"]) "c2"
        (evSlot "c2" ⟨⟨"e1", 0, 3600, 0, 0⟩, 0, 3600⟩) :=
  ⟨by decide, by decide, by decide,
    (c2_packer_assignment ["c1", "c2"] [("e1", "c2")] (mkTimelines ["c1", "c2"])
      ⟨⟨"e1", 0, 3600, 0, 0⟩, 0, 3600⟩ (by decide) (by decide)).1 "c2" (by decide)
      (by decide) (by decide)⟩

/-- C1 (counterexample): the no-overlap invariant is claimed for every input
channel list, but a channel list with a duplicated id makes `build_plan`
emit each of that lane's slots once per duplicate (the clean-up pass walks
`channels_sorted`, reading the same `timelines` entry twice), so the lane's
slot list ordered by start contains two identical, overlapping event slots. -/
theorem c1_counterexample :
    ¬ (((buildPlan ["c1", "c1"] [⟨"e1", 0, 3600, 0, 0⟩] 0 3600 60 30 [] 0 0 true).1.filter
        fun s => s.channel_id == "c1").Pairwise slotBefore) := by decide

/-- C2 (counterexample): with the single channel id `""`, the lane is free at
the event's interval and the sticky map is empty, so the claim requires the
event to be assigned to the first free lane; instead `build_plan` drops it
(`if not target_cid: continue` treats the empty-string lane id as falsy) and
the produced plan is empty. -/
theorem c2_counterexample :
    (buildPlan [""] [⟨"e1", 0, 3600, 0, 0⟩] 0 3600 7200 30 [] 0 0 true).1 = [] ∧
    laneFree (laneOf (mkTimelines [""]) "") 0 3600 = true := by decide

/-- C3: `build_plan` followed by `checksum_rows` is a deterministic function
of the event list, channel list, sticky map and window/grid/padding
parameters: two runs on identical inputs serialize to the same canonical
rows and the same SHA-256 checksum.  The embedding exhibits this by
computing the rows and checksum from the bundled inputs alone — there is no
other state (no clock, no dict iteration order) the output could depend on. -/
theorem c3_deterministic_checksum (i j : BuildInputs) (h : i = j) :
    planRows i = planRows j ∧ planChecksum i = planChecksum j := by
  subst h
  exact ⟨rfl, rfl⟩

/-- C3 witness: the determinism theorem applied at a concrete input. -/
theorem c3_witness :
    planRows ⟨["c1"], [⟨"e1", 0, 3600, 0, 0⟩], 0, 3600, 60, 30, 0, 0, true, []⟩ =
      planRows ⟨["c1"], [⟨"e1", 0, 3600, 0, 0⟩], 0, 3600, 60, 30, 0, 0, true, []⟩ ∧
    planChecksum ⟨["c1"], [⟨"e1", 0, 3600, 0, 0⟩], 0, 3600, 60, 30, 0, 0, true, []⟩ =
      planChecksum ⟨["c1"], [⟨"e1", 0, 3600, 0, 0⟩], 0, 3600, 60, 30, 0, 0, true, []⟩ :=
  c3_deterministic_checksum _ _ rfl

/-- C4 (counterexample): an event `[10:05, 10:50)` (36300–39000 epoch
seconds) inside the window `[10:00, 11:00)` with a 30-minute step is claimed
to appear as the grid-snapped slot `[10:00, 11:00)`; the produced plan keeps
the event slot at `[10:05, 10:50)` — `build_plan` never applies
`_floor_to_step`/`_ceil_to_step` to event slots. -/
theorem c4_counterexample :
    (buildPlan ["c1"] [⟨"e1", 36300, 39000, 0, 0⟩] 36000 39600 3600 30 [] 0 0 true).1 =
      [⟨"c1", some "e1", 36300, 39000, "event", none⟩] ∧
    floor_to_step 36300 30 = 36000 ∧ ceil_to_step 39000 30 = 39600 ∧
    (36300 : Int) ≠ 36000 ∧ (39000 : Int) ≠ 39600 := by decide

/-- C5 (counterexample): window `[10:00, 10:40)`, events `[10:00, 10:07)` and
`[10:20, 10:40)`, `min_gap` 10 minutes, 30-minute grid.  The gap
`[10:07, 10:20)` is 13 minutes ≥ `min_gap`, yet the plan contains no
placeholder: `_segmentize` starts at the first grid boundary after the
cursor (10:30), which already lies beyond the gap's end, so the claimed
"placeholders iff gap ≥ min_gap" fails in the forward direction. -/
theorem c5_counterexample :
    (buildPlan ["c1"] [⟨"e1", 36000, 36420, 0, 0⟩, ⟨"e2", 37200, 38400, 0, 0⟩]
        36000 38400 600 30 [] 0 0 true).1 =
      [⟨"c1", some "e1", 36000, 36420, "event", none⟩,
       ⟨"c1", some "e2", 37200, 38400, "event", none⟩] ∧
    (600 : Int) ≤ 37200 - 36420 := by decide

/-- C6 (counterexample): the spec's own example — a placeholder
`[09:30, 10:30)` (34200–37800) followed by an event `[10:00, 10:30)`
(36000–37800) on the same lane.  The claim requires the pass to truncate the
placeholder to `[09:30, 10:00)`; the pass emits both slots unchanged (its
overlap branches only fire when `current` is an event). -/
theorem c6_counterexample :
    cleanLoop "c1" (sortLe cleanLe
      [⟨"c1", none, 34200, 37800, "placeholder", some "gap"⟩,
       ⟨"c1", some "e1", 36000, 37800, "event", none⟩]) =
      ([⟨"c1", none, 34200, 37800, "placeholder", some "gap"⟩,
        ⟨"c1", some "e1", 36000, 37800, "event", none⟩], [("e1", "c1")]) ∧
    (37800 : Int) > 36000 := by decide

/-- C7 (counterexample): two events with identical intervals `[T0, T0+60m)`
and identities `"a" < "b"`, two lanes, empty sticky map.  Fed in the order
`[b, a]`, `build_plan` assigns `"b"` to the first lane and `"a"` to the
second — the claim that the lower identity wins the first lane regardless of
input order is false, because neither `load_events` (`ORDER BY start_utc`
only) nor `build_plan` breaks start ties by identity. -/
theorem c7_counterexample :
    (buildPlan ["c1", "c2"] [⟨"b", 0, 3600, 0, 0⟩, ⟨"a", 0, 3600, 0, 0⟩]
        0 3600 60 30 [] 0 0 true).1 =
      [⟨"c1", some "b", 0, 3600, "event", none⟩,
       ⟨"c2", some "a", 0, 3600, "event", none⟩] ∧
    strLtB "a" "b" = true := by decide

/-- C7 (amended): events are packed in input-list order (the SQL load orders
by start only; no identity tie-break exists).  With two lanes and two
simultaneous equal-length events, whichever event appears first in the input
list is assigned the first lane, the other the second — shown for both
arrival orders. -/
theorem c7_input_order_assignment :
    (buildPlan ["c1", "c2"] [⟨"b", 0, 3600, 0, 0⟩, ⟨"a", 0, 3600, 0, 0⟩]
        0 3600 60 30 [] 0 0 true).1 =
      [⟨"c1", some "b", 0, 3600, "event", none⟩,
       ⟨"c2", some "a", 0, 3600, "event", none⟩] ∧
    (buildPlan ["c1", "c2"] [⟨"a", 0, 3600, 0, 0⟩, ⟨"b", 0, 3600, 0, 0⟩]
        0 3600 60 30 [] 0 0 true).1 =
      [⟨"c1", some "a", 0, 3600, "event", none⟩,
       ⟨"c2", some "b", 0, 3600, "event", none⟩] := by decide

/-- C8: `write_plan` persists the `plan_run` row, all `plan_slot` rows and
the `active_plan_id` update inside one transaction; if any of the three
statements fails the whole transaction is rolled back — the state (in
particular the previously active plan id) is returned unchanged and no row
is visible.  On success all three writes are visible and the pointer names
the new plan id. -/
theorem c8_write_plan_atomic (f1 f2 f3 : Bool) (nowT : Int) (st : Db)
    (plan_slots : List Slot) (wstart wend : Int) (note : String) :
    (((f1 || f2 || f3) = true →
        (write_plan f1 f2 f3 nowT st plan_slots wstart wend note).1 = st ∧
        (write_plan f1 f2 f3 nowT st plan_slots wstart wend note).1.plan_meta_active =
          st.plan_meta_active ∧
        (write_plan f1 f2 f3 nowT st plan_slots wstart wend note).2 = none) ∧
      ((f1 || f2 || f3) = false →
        (write_plan f1 f2 f3 nowT st plan_slots wstart wend note).1.plan_run =
          st.plan_run ++ [(nextRowid st.plan_run,
            ⟨iso nowT, iso wstart, iso wend, "builder:" ++ VERSION, note,
              checksum_rows (plan_slots.map rowJson)⟩)] ∧
        (write_plan f1 f2 f3 nowT st plan_slots wstart wend note).1.plan_slot =
          st.plan_slot ++ plan_slots.map (fun s =>
            ⟨nextRowid st.plan_run, s.channel_id, s.event_id, iso s.start, iso s.stop,
              s.kind, s.placeholder_reason⟩) ∧
        (write_plan f1 f2 f3 nowT st plan_slots wstart wend note).1.plan_meta_active =
          some (toString (nextRowid st.plan_run)) ∧
        (write_plan f1 f2 f3 nowT st plan_slots wstart wend note).2 =
          some (nextRowid st.plan_run, checksum_rows (plan_slots.map rowJson)))) := by
  cases f1 <;> cases f2 <;> cases f3 <;>
    simp [write_plan]

/-- C8 witness: a failed write at the first statement leaves a concrete state
untouched. -/
theorem c8_witness :
    (write_plan true false false 0 ⟨[("x", "y")], [], [], some "7"⟩ [] 0 3600 "n").1 =
      ⟨[("x", "y")], [], [], some "7"⟩ ∧
    (write_plan true false false 0 ⟨[("x", "y")], [], [], some "7"⟩ [] 0 3600 "n").1.plan_meta_active =
      (⟨[("x", "y")], [], [], some "7"⟩ : Db).plan_meta_active ∧
    (write_plan true false false 0 ⟨[("x", "y")], [], [], some "7"⟩ [] 0 3600 "n").2 = none :=
  (c8_write_plan_atomic true false false 0 ⟨[("x", "y")], [], [], some "7"⟩ [] 0 3600 "n").1 rfl

/-- C9 (counterexample): a build over one event with an initially empty
sticky store whose plan write fails (first statement): the plan write is
rolled back (`none` result) yet the sticky store afterwards contains the
upsert `("e1", "c1")` committed by `build_plan` before `write_plan` ran —
the sticky store is not left as it was before the build. -/
theorem c9_counterexample :
    (runBuild true false false 0 ⟨[], [], [], none⟩ ["c1"] [⟨"e1", 0, 3600, 0, 0⟩]
        0 3600 60 30 0 0 true "").2 = none ∧
    (runBuild true false false 0 ⟨[], [], [], none⟩ ["c1"] [⟨"e1", 0, 3600, 0, 0⟩]
        0 3600 60 30 0 0 true "").1.event_lane = [("e1", "c1")] ∧
    (⟨[], [], [], none⟩ : Db).event_lane = [] := by decide

/-- C9 (amended): the sticky upserts are committed in `build_plan`'s own
transaction before the plan write; a failed `write_plan` leaves `plan_run`,
`plan_slot` and the active pointer exactly as before the build, while the
sticky store keeps the build's upserts. -/
theorem c9_sticky_survives_failed_write (f1 f2 f3 : Bool) (nowT : Int) (st : Db)
    (channels : List String) (events : List Event)
    (wstart wend minGap alignM padS padE : Int) (liveOnly : Bool) (note : String)
    (h : (f1 || f2 || f3) = true) :
    (runBuild f1 f2 f3 nowT st channels events wstart wend minGap alignM padS padE
        liveOnly note).1.plan_run = st.plan_run ∧
    (runBuild f1 f2 f3 nowT st channels events wstart wend minGap alignM padS padE
        liveOnly note).1.plan_slot = st.plan_slot ∧
    (runBuild f1 f2 f3 nowT st channels events wstart wend minGap alignM padS padE
        liveOnly note).1.plan_meta_active = st.plan_meta_active ∧
    (runBuild f1 f2 f3 nowT st channels events wstart wend minGap alignM padS padE
        liveOnly note).1.event_lane =
      (buildPlanDb st channels events wstart wend minGap alignM padS padE
        liveOnly).1.event_lane ∧
    (runBuild f1 f2 f3 nowT st channels events wstart wend minGap alignM padS padE
        liveOnly note).2 = none := by
  cases f1 <;> cases f2 <;> cases f3 <;>
    simp_all [runBuild, write_plan, buildPlanDb]

/-- C9 amended witness: instantiated at the counterexample's concrete build. -/
theorem c9_witness :
    ((true : Bool) || false || false) = true ∧
    (runBuild true false false 0 ⟨[], [], [], none⟩ ["c1"] [⟨"e1", 0, 3600, 0, 0⟩]
        0 3600 60 30 0 0 true "").1.plan_run = (⟨[], [], [], none⟩ : Db).plan_run ∧
    (runBuild true false false 0 ⟨[], [], [], none⟩ ["c1"] [⟨"e1", 0, 3600, 0, 0⟩]
        0 3600 60 30 0 0 true "").1.event_lane =
      (buildPlanDb ⟨[], [], [], none⟩ ["c1"] [⟨"e1", 0, 3600, 0, 0⟩]
        0 3600 60 30 0 0 true).1.event_lane :=
  ⟨rfl,
    (c9_sticky_survives_failed_write true false false 0 ⟨[], [], [], none⟩ ["c1"]
      [⟨"e1", 0, 3600, 0, 0⟩] 0 3600 60 30 0 0 true "" rfl).1,
    (c9_sticky_survives_failed_write true false false 0 ⟨[], [], [], none⟩ ["c1"]
      [⟨"e1", 0, 3600, 0, 0⟩] 0 3600 60 30 0 0 true "" rfl).2.2.2.1⟩

end ESPN4CC
